import Mathlib

/-!
Shallow embedding of the strigo rate limiter core (options.go, ratelimiter.go,
strategies.go, internal/db/memory.go, internal/db/memcached.go, internal/db
redis adapter) and proofs about it.

Modelling conventions:
* Wall-clock time is integer milliseconds (plain `Int` values).  Go's `time.Time`
  zero value corresponds to `0`; `t.IsZero()` is `t = 0`.  `time.Duration`
  values are converted to milliseconds (`d.Seconds()` becomes `d / 1000` as a
  rational, `Milliseconds()` is the value itself).
* Go `float64` quantities (tokens, refill rates) are modelled as `ℚ`; the Go
  conversion `int64(f)` (truncation toward zero) is `goInt64`.
* The in-memory storage backend (internal/db/memory.go) is modelled as three
  association lists mirroring its `data`, `jsonData` and `expiry` maps.  The
  JSON blob payloads are a tagged sum `Blob`; `json.Unmarshal` of an absent key
  leaves the zero-valued destination untouched, and unmarshalling a blob of a
  different algorithm (whose field names are disjoint) also yields the zero
  value, which is how the typed readers below behave.
* `Nat` subtraction is never relied upon: all arithmetic is on `Int`/`ℚ`.
-/

namespace Strigo

/-- Go `int64(f)` conversion applied to an exact rational: truncation toward
zero (floor for nonnegative values, ceiling for negative ones). -/
def goInt64 (q : ℚ) : ℤ := if 0 ≤ q then ⌊q⌋ else ⌈q⌉

/-- Opaque storage client handle passed in `Options.StoreClient`
(ratelimiter.go auto-detection inspects its runtime type name). -/
inductive StoreClient
  | redisClient
  | memcacheClient
  | other (typeName : String)
deriving DecidableEq

/-- Runtime type name of a client handle, as produced by Go `fmt.Sprintf("%T", c)`. -/
def clientTypeName : StoreClient → String
  | .redisClient => "*redis.Client"
  | .memcacheClient => "*memcache.Client"
  | .other t => t

/-- Configuration options (options.go `Options`); `keyPfx` is the source field
`KeyPrefix`, `duration` and `blockDuration` are in seconds. -/
structure Options where
  points : Int
  duration : Int
  strategy : String
  blockDuration : Int
  keyPfx : String
  storeClient : Option StoreClient
  storeType : String
deriving DecidableEq

/-- Defaults from options.go `NewOptions`. -/
def defaultOptions : Options :=
  { points := 5, duration := 1, strategy := "token_bucket", blockDuration := 0,
    keyPfx := "rl", storeClient := none, storeType := "memory" }

/-- Result of a Consume/Get call (result.go `Result`). -/
structure Result where
  msBeforeNext : Int
  remainingPoints : Int
  consumedPoints : Int
  isFirstInDuration : Bool
  totalHits : Int
  allowed : Bool
deriving DecidableEq

/-- Token bucket persisted state (strategies.go `TokenBucketData`). -/
structure TokenBucketData where
  tokens : ℚ
  lastRefill : Int
  capacity : Int
  refillRate : ℚ
deriving DecidableEq

/-- One queued request of the leaky bucket (strategies.go `QueuedRequest`). -/
structure QueuedRequest where
  timestamp : Int
  points : Int
deriving DecidableEq

/-- Leaky bucket persisted state (strategies.go `LeakyBucketData`). -/
structure LeakyBucketData where
  queue : List QueuedRequest
  lastDrain : Int
  drainRate : ℚ
deriving DecidableEq

/-- Sliding window persisted state (strategies.go `SlidingWindowData`). -/
structure SlidingWindowData where
  requests : List Int
deriving DecidableEq

/-- Tagged JSON blob stored by the three blob-based strategies. -/
inductive Blob
  | tb (d : TokenBucketData)
  | lb (d : LeakyBucketData)
  | sw (d : SlidingWindowData)
deriving DecidableEq

/-- Zero value of `TokenBucketData` (a freshly declared Go `var`). -/
def zeroTB : TokenBucketData := { tokens := 0, lastRefill := 0, capacity := 0, refillRate := 0 }

/-- Zero value of `LeakyBucketData`. -/
def zeroLB : LeakyBucketData := { queue := [], lastDrain := 0, drainRate := 0 }

/-- Zero value of `SlidingWindowData`. -/
def zeroSW : SlidingWindowData := { requests := [] }

/-! Association-list primitives used to model the Go maps of the in-memory
storage backend.  `alSet` overwrites, `alDel` removes all entries of a key. -/

/-- Lookup of a key in an association list (Go map read). -/
def alGet {α : Type} : List (String × α) → String → Option α
  | [], _ => none
  | (k', v) :: t, k => if k' = k then some v else alGet t k

/-- Removal of a key from an association list (Go `delete`). -/
def alDel {α : Type} : List (String × α) → String → List (String × α)
  | [], _ => []
  | (k', v) :: t, k => if k' = k then alDel t k else (k', v) :: alDel t k

/-- Overwrite of a key in an association list (Go map assignment). -/
def alSet {α : Type} (l : List (String × α)) (k : String) (v : α) : List (String × α) :=
  (k, v) :: alDel l k

/-- In-memory storage backend state (internal/db/memory.go `MemoryStorage`):
integer counters, JSON blobs and per-key expiry timestamps. -/
structure MemStorage where
  data : List (String × Int)
  jsonData : List (String × Blob)
  expiry : List (String × Int)
deriving DecidableEq

/-- The completely empty in-memory store (fresh `NewMemoryStorage`). -/
def emptyStore : MemStorage := { data := [], jsonData := [], expiry := [] }

/-- Expiry check used by the memory backend: the key has an expiry entry and
`time.Now().After(exp)` holds, i.e. `exp < now`. -/
def memExpired (s : MemStorage) (now : Int) (key : String) : Bool :=
  match alGet s.expiry key with
  | some exp => decide (exp < now)
  | none => false

/-- `MemoryStorage.Increment`: purge the counter if expired (the source deletes
only `data` and `expiry` there), add `amount`, refresh the expiry. -/
def memIncrement (now : Int) (s : MemStorage) (key : String) (amount : Int)
    (ttl : Int) : Int × MemStorage :=
  let s1 := if memExpired s now key then
      { s with data := alDel s.data key, expiry := alDel s.expiry key } else s
  let count := (alGet s1.data key).getD 0 + amount
  (count, { s1 with data := alSet s1.data key count, expiry := alSet s1.expiry key (now + ttl) })

/-- `MemoryStorage.Get`: expired or absent keys read as 0.  A read takes only
the shared lock and performs no mutation. -/
def memGet (now : Int) (s : MemStorage) (key : String) : Int :=
  if memExpired s now key then 0 else (alGet s.data key).getD 0

/-- `MemoryStorage.Reset`: delete the key from all three maps; never fails. -/
def memReset (s : MemStorage) (key : String) : MemStorage :=
  { data := alDel s.data key, jsonData := alDel s.jsonData key, expiry := alDel s.expiry key }

/-- `MemoryStorage.SetJSON`: store the blob and refresh the expiry. -/
def memSetJSON (now : Int) (s : MemStorage) (key : String) (b : Blob)
    (ttl : Int) : MemStorage :=
  { s with jsonData := alSet s.jsonData key b, expiry := alSet s.expiry key (now + ttl) }

/-- `MemoryStorage.GetJSON`: expired or absent keys leave the destination
untouched (modelled as `none`); otherwise the stored blob is returned.  A read
takes only the shared lock and performs no mutation. -/
def memGetJSON (now : Int) (s : MemStorage) (key : String) : Option Blob :=
  if memExpired s now key then none else alGet s.jsonData key

/-- Typed read of a token bucket blob: absent, expired, or a blob of another
algorithm (disjoint JSON field names) all leave the zero value. -/
def readTB (now : Int) (s : MemStorage) (key : String) : TokenBucketData :=
  match memGetJSON now s key with
  | some (.tb d) => d
  | _ => zeroTB

/-- Typed read of a leaky bucket blob (see `readTB`). -/
def readLB (now : Int) (s : MemStorage) (key : String) : LeakyBucketData :=
  match memGetJSON now s key with
  | some (.lb d) => d
  | _ => zeroLB

/-- Typed read of a sliding window blob (see `readTB`). -/
def readSW (now : Int) (s : MemStorage) (key : String) : SlidingWindowData :=
  match memGetJSON now s key with
  | some (.sw d) => d
  | _ => zeroSW

/-! The rate limiter façade and the four strategy engines. -/

/-- `RateLimiter.buildKey`: `{key_prefix}:{user_key}`. -/
def buildKey (opts : Options) (key : String) : String :=
  opts.keyPfx ++ ":" ++ key

/-- `opts.GetDuration()` in milliseconds. -/
def durMs (opts : Options) : Int := opts.duration * 1000

/-- `opts.GetDuration().Seconds()` as a rational. -/
def durSec (opts : Options) : ℚ := (opts.duration : ℚ)

/-- Fresh token bucket state built by the init branch of `consumeTokenBucket`. -/
def initTB (opts : Options) (now : Int) : TokenBucketData :=
  { tokens := (opts.points : ℚ), lastRefill := now, capacity := opts.points,
    refillRate := (opts.points : ℚ) / durSec opts }

/-- Fresh leaky bucket state built by the init branch of `consumeLeakyBucket`. -/
def initLB (opts : Options) (now : Int) : LeakyBucketData :=
  { queue := [], lastDrain := now, drainRate := (opts.points : ℚ) / durSec opts }

/-- The loaded-or-initialized token bucket state of `consumeTokenBucket`. -/
def tbState (opts : Options) (now : Int) (s : MemStorage) (dataKey : String) :
    TokenBucketData :=
  let data0 := readTB now s dataKey
  if data0.lastRefill = 0 then initTB opts now else data0

/-- `elapsed := now.Sub(data.LastRefill).Seconds()` of `consumeTokenBucket`. -/
def tbElapsed (opts : Options) (now : Int) (s : MemStorage) (dataKey : String) : ℚ :=
  ((now - (tbState opts now s dataKey).lastRefill : Int) : ℚ) / 1000

/-- The refilled bucket level of `consumeTokenBucket`:
`min(capacity, tokens + elapsed · refill_rate)`. -/
def tbRefilled (opts : Options) (now : Int) (s : MemStorage) (dataKey : String) : ℚ :=
  min ((tbState opts now s dataKey).capacity : ℚ)
    ((tbState opts now s dataKey).tokens +
      tbElapsed opts now s dataKey * (tbState opts now s dataKey).refillRate)

/-- `RateLimiter.consumeTokenBucket` (strategies.go): refill from elapsed time,
admit iff enough tokens, persist only on admission with TTL `2D`; on denial
`ms_before_next = int64((cost − tokens) / refill_rate · 1000)`. -/
def consumeTokenBucket (opts : Options) (now : Int) (s : MemStorage) (key : String)
    (pts : Int) : Result × MemStorage :=
  let dataKey := buildKey opts key ++ ":tb"
  let data1 := tbState opts now s dataKey
  let tokens1 := tbRefilled opts now s dataKey
  if (pts : ℚ) ≤ tokens1 then
    let data3 : TokenBucketData :=
      { tokens := tokens1 - (pts : ℚ), lastRefill := now,
        capacity := data1.capacity, refillRate := data1.refillRate }
    ({ msBeforeNext := 0, remainingPoints := goInt64 data3.tokens, consumedPoints := pts,
       isFirstInDuration := decide (durSec opts < tbElapsed opts now s dataKey),
       totalHits := opts.points, allowed := true },
     memSetJSON now s dataKey (.tb data3) (durMs opts * 2))
  else
    ({ msBeforeNext := goInt64 ((((pts : ℚ) - tokens1) / data1.refillRate) * 1000),
       remainingPoints := goInt64 tokens1, consumedPoints := 0,
       isFirstInDuration := false, totalHits := opts.points, allowed := false }, s)

/-- Loop body of `drainRequests` (strategies.go): walk the queue accumulating
drained points, stopping as soon as `toDrain` has been reached; the item that
crosses the threshold is dropped whole. -/
def drainLoop : List QueuedRequest → Int → Int → List QueuedRequest
  | [], _, _ => []
  | req :: rest, toDrain, drained =>
    if toDrain ≤ drained then req :: rest
    else drainLoop rest toDrain (drained + req.points)

/-- `RateLimiter.drainRequests`. -/
def drainRequests (queue : List QueuedRequest) (toDrain : Int) : List QueuedRequest :=
  drainLoop queue toDrain 0

/-- Total point-mass of a queue. -/
def sumPoints (q : List QueuedRequest) : Int :=
  (q.map (fun r => r.points)).sum

/-- The loaded-or-initialized leaky bucket state of `consumeLeakyBucket`. -/
def lbState (opts : Options) (now : Int) (s : MemStorage) (dataKey : String) :
    LeakyBucketData :=
  let data0 := readLB now s dataKey
  if data0.lastDrain = 0 then initLB opts now else data0

/-- `elapsed := now.Sub(data.LastDrain).Seconds()` of `consumeLeakyBucket`. -/
def lbElapsed (opts : Options) (now : Int) (s : MemStorage) (dataKey : String) : ℚ :=
  ((now - (lbState opts now s dataKey).lastDrain : Int) : ℚ) / 1000

/-- The queue after draining `int64(elapsed · drain_rate)` point-units. -/
def lbQueue (opts : Options) (now : Int) (s : MemStorage) (dataKey : String) :
    List QueuedRequest :=
  drainRequests (lbState opts now s dataKey).queue
    (goInt64 (lbElapsed opts now s dataKey * (lbState opts now s dataKey).drainRate))

/-- The drained queue's point-mass (`currentPoints` in the source). -/
def lbCurrent (opts : Options) (now : Int) (s : MemStorage) (dataKey : String) : Int :=
  sumPoints (lbQueue opts now s dataKey)

/-- `RateLimiter.consumeLeakyBucket` (strategies.go). -/
def consumeLeakyBucket (opts : Options) (now : Int) (s : MemStorage) (key : String)
    (pts : Int) : Result × MemStorage :=
  let dataKey := buildKey opts key ++ ":lb"
  let data1 := lbState opts now s dataKey
  let queue1 := lbQueue opts now s dataKey
  let currentPoints := lbCurrent opts now s dataKey
  if currentPoints + pts ≤ opts.points then
    let queue2 := queue1 ++ [{ timestamp := now, points := pts }]
    ({ msBeforeNext := 0, remainingPoints := opts.points - (currentPoints + pts),
       consumedPoints := currentPoints + pts,
       isFirstInDuration := decide (queue2.length = 1), totalHits := opts.points,
       allowed := true },
     memSetJSON now s dataKey
       (.lb { queue := queue2, lastDrain := now, drainRate := data1.drainRate })
       (durMs opts * 2))
  else
    ({ msBeforeNext :=
         goInt64 ((((currentPoints + pts - opts.points : Int) : ℚ) / data1.drainRate) * 1000),
       remainingPoints := opts.points - currentPoints, consumedPoints := currentPoints,
       isFirstInDuration := false, totalHits := opts.points, allowed := false }, s)

/-- `RateLimiter.removeOldRequests`: keep timestamps strictly after the window
start (`req.After(windowStart)`). -/
def removeOldRequests (requests : List Int) (windowStart : Int) : List Int :=
  requests.filter (fun req => windowStart < req)

/-- The stored sliding-window timestamps (empty when absent, the init branch). -/
def swStored (now : Int) (s : MemStorage) (dataKey : String) : List Int :=
  (readSW now s dataKey).requests

/-- The stored timestamps still inside the window `(now − D, now]`. -/
def swValid (opts : Options) (now : Int) (s : MemStorage) (dataKey : String) : List Int :=
  removeOldRequests (swStored now s dataKey) (now - durMs opts)

/-- `RateLimiter.consumeSlidingWindow` (strategies.go). -/
def consumeSlidingWindow (opts : Options) (now : Int) (s : MemStorage) (key : String)
    (pts : Int) : Result × MemStorage :=
  let dataKey := buildKey opts key ++ ":sw"
  let requests1 := swValid opts now s dataKey
  if (requests1.length : Int) + pts ≤ opts.points then
    let requests2 := requests1 ++ List.replicate pts.toNat now
    ({ msBeforeNext := 0, remainingPoints := opts.points - (requests2.length : Int),
       consumedPoints := (requests2.length : Int),
       isFirstInDuration := decide ((requests2.length : Int) = pts), totalHits := opts.points,
       allowed := true },
     memSetJSON now s dataKey (.sw { requests := requests2 }) (durMs opts * 2))
  else
    match requests1 with
    | oldest :: _ =>
      let ms0 := oldest + durMs opts - now
      ({ msBeforeNext := if ms0 < 0 then 0 else ms0,
         remainingPoints := opts.points - (requests1.length : Int),
         consumedPoints := (requests1.length : Int),
         isFirstInDuration := false, totalHits := opts.points, allowed := false }, s)
    | [] =>
      ({ msBeforeNext := 0, remainingPoints := opts.points, consumedPoints := 0,
         isFirstInDuration := true, totalHits := opts.points, allowed := false }, s)

/-- `RateLimiter.getWindowStartFixed`: `now.Truncate(duration)`, i.e. the
largest multiple of the window length not exceeding `now`. -/
def windowStartFixed (opts : Options) (now : Int) : Int :=
  (Int.ediv now (durMs opts)) * durMs opts

/-- Window-key suffix number: `windowStart.Unix()`, seconds since the epoch. -/
def windowUnix (opts : Options) (now : Int) : Int :=
  Int.ediv (windowStartFixed opts now) 1000

/-- The per-window counter key `{base}:{window_start_unix}` built by the
fixed-window engine from an already prefixed storage key. -/
def windowKeyOf (storageKey : String) (opts : Options) (now : Int) : String :=
  storageKey ++ ":" ++ toString (windowUnix opts now)

/-- `RateLimiter.consumeFixedWindow` (strategies.go): read the current-window
counter, admit iff `c + cost ≤ P`, increment only on admission with TTL `D`. -/
def consumeFixedWindow (opts : Options) (now : Int) (s : MemStorage) (key : String)
    (pts : Int) : Result × MemStorage :=
  let storageKey := buildKey opts key
  let windowKey := windowKeyOf storageKey opts now
  let currentCount := memGet now s windowKey
  let newCount := currentCount + pts
  let ms := windowStartFixed opts now + durMs opts - now
  if newCount ≤ opts.points then
    let s' := (memIncrement now s windowKey pts (durMs opts)).2
    ({ msBeforeNext := ms,
       remainingPoints := if opts.points - newCount < 0 then 0 else opts.points - newCount,
       consumedPoints := newCount, isFirstInDuration := decide (currentCount = 0),
       totalHits := opts.points, allowed := true }, s')
  else
    ({ msBeforeNext := ms,
       remainingPoints := if opts.points - currentCount < 0 then 0 else opts.points - currentCount,
       consumedPoints := currentCount, isFirstInDuration := decide (currentCount = 0),
       totalHits := opts.points, allowed := false }, s)

/-- `RateLimiter.Consume` (ratelimiter.go): reject negative cost, then dispatch
on the strategy string; unknown strategies fall back to the token bucket. -/
def rlConsume (opts : Options) (now : Int) (s : MemStorage) (key : String)
    (pts : Int) : Except String (Result × MemStorage) :=
  if pts < 0 then .error "points cannot be negative"
  else .ok (
    if opts.strategy = "token_bucket" then consumeTokenBucket opts now s key pts
    else if opts.strategy = "leaky_bucket" then consumeLeakyBucket opts now s key pts
    else if opts.strategy = "sliding_window" then consumeSlidingWindow opts now s key pts
    else if opts.strategy = "fixed_window" then consumeFixedWindow opts now s key pts
    else consumeTokenBucket opts now s key pts)

/-! Get implementations (ratelimiter.go).  The storage reads of the memory
backend hold only the shared lock and mutate nothing; their state-threaded
forms below therefore return the state they were given, and each `get*`
function threads that state to its own result. -/

/-- State-threaded form of `MemoryStorage.Get` (read-only). -/
def memGetOp (now : Int) (s : MemStorage) (key : String) : Int × MemStorage :=
  (memGet now s key, s)

/-- State-threaded form of the typed token bucket read (read-only). -/
def readTBOp (now : Int) (s : MemStorage) (key : String) : TokenBucketData × MemStorage :=
  (readTB now s key, s)

/-- State-threaded form of the typed leaky bucket read (read-only). -/
def readLBOp (now : Int) (s : MemStorage) (key : String) : LeakyBucketData × MemStorage :=
  (readLB now s key, s)

/-- State-threaded form of the typed sliding window read (read-only). -/
def readSWOp (now : Int) (s : MemStorage) (key : String) : SlidingWindowData × MemStorage :=
  (readSW now s key, s)

/-- Current token level computed by `getTokenBucket` (no init branch, manual
capacity clamp). -/
def gtbCurrent (now : Int) (s : MemStorage) (dataKey : String) : ℚ :=
  let data := readTB now s dataKey
  let current0 := data.tokens + (((now - data.lastRefill : Int) : ℚ) / 1000) * data.refillRate
  if (data.capacity : ℚ) < current0 then (data.capacity : ℚ) else current0

/-- `RateLimiter.getTokenBucket`: `nil` when `last_refill` is the zero time. -/
def getTokenBucket (opts : Options) (now : Int) (s : MemStorage) (storageKey : String) :
    Option Result × MemStorage :=
  let r := readTBOp now s (storageKey ++ ":tb")
  let data := r.1
  if data.lastRefill = 0 then (none, r.2)
  else
    let currentTokens := gtbCurrent now s (storageKey ++ ":tb")
    (some { msBeforeNext := 0, remainingPoints := goInt64 currentTokens,
            consumedPoints := data.capacity - goInt64 currentTokens,
            isFirstInDuration := false, totalHits := opts.points,
            allowed := decide (1 ≤ goInt64 currentTokens) }, r.2)

/-- The drained queue computed by `getLeakyBucket` (no init branch). -/
def glbQueue (now : Int) (s : MemStorage) (dataKey : String) : List QueuedRequest :=
  let data := readLB now s dataKey
  drainRequests data.queue
    (goInt64 ((((now - data.lastDrain : Int) : ℚ) / 1000) * data.drainRate))

/-- `RateLimiter.getLeakyBucket`: `nil` when `last_drain` is the zero time. -/
def getLeakyBucket (opts : Options) (now : Int) (s : MemStorage) (storageKey : String) :
    Option Result × MemStorage :=
  let r := readLBOp now s (storageKey ++ ":lb")
  let data := r.1
  if data.lastDrain = 0 then (none, r.2)
  else
    let currentPoints := sumPoints (glbQueue now s (storageKey ++ ":lb"))
    (some { msBeforeNext := 0, remainingPoints := opts.points - currentPoints,
            consumedPoints := currentPoints, isFirstInDuration := false,
            totalHits := opts.points, allowed := decide (currentPoints < opts.points) }, r.2)

/-- `RateLimiter.getSlidingWindow`: `nil` when the stored sequence is empty. -/
def getSlidingWindow (opts : Options) (now : Int) (s : MemStorage) (storageKey : String) :
    Option Result × MemStorage :=
  let r := readSWOp now s (storageKey ++ ":sw")
  let data := r.1
  if data.requests.isEmpty then (none, r.2)
  else
    let valid := swValid opts now s (storageKey ++ ":sw")
    (some { msBeforeNext := 0, remainingPoints := opts.points - (valid.length : Int),
            consumedPoints := (valid.length : Int), isFirstInDuration := false,
            totalHits := opts.points, allowed := decide ((valid.length : Int) < opts.points) }, r.2)

/-- `RateLimiter.getFixedWindow`: `nil` when the current-window counter is 0. -/
def getFixedWindow (opts : Options) (now : Int) (s : MemStorage) (storageKey : String) :
    Option Result × MemStorage :=
  let windowKey := windowKeyOf storageKey opts now
  let r := memGetOp now s windowKey
  let currentCount := r.1
  if currentCount = 0 then (none, r.2)
  else
    ( some { msBeforeNext := windowStartFixed opts now + durMs opts - now,
             remainingPoints := if opts.points - currentCount < 0 then 0 else opts.points - currentCount,
             consumedPoints := currentCount, isFirstInDuration := false,
             totalHits := opts.points, allowed := decide (currentCount ≤ opts.points) }, r.2)

/-- `RateLimiter.Get` (ratelimiter.go): dispatch on the strategy; unknown
strategies fall back to the token bucket reader. -/
def rlGet (opts : Options) (now : Int) (s : MemStorage) (key : String) :
    Option Result × MemStorage :=
  let storageKey := buildKey opts key
  if opts.strategy = "token_bucket" then getTokenBucket opts now s storageKey
  else if opts.strategy = "leaky_bucket" then getLeakyBucket opts now s storageKey
  else if opts.strategy = "sliding_window" then getSlidingWindow opts now s storageKey
  else if opts.strategy = "fixed_window" then getFixedWindow opts now s storageKey
  else getTokenBucket opts now s storageKey

/-- `RateLimiter.Reset` (ratelimiter.go): delete the `:tb`, `:lb`, `:sw` keys
(errors ignored) and then the base key; the memory backend never fails. -/
def rlReset (opts : Options) (s : MemStorage) (key : String) : MemStorage :=
  let storageKey := buildKey opts key
  let s1 := memReset s (storageKey ++ ":tb")
  let s2 := memReset s1 (storageKey ++ ":lb")
  let s3 := memReset s2 (storageKey ++ ":sw")
  memReset s3 storageKey

/-- `RateLimiter.Block` (ratelimiter.go): increment `{base}:block` by
`points + 1000` with TTL `block_seconds`. -/
def rlBlock (opts : Options) (now : Int) (s : MemStorage) (key : String)
    (durationSec : Int) : MemStorage :=
  let blockKey := buildKey opts key ++ ":block"
  (memIncrement now s blockKey (opts.points + 1000) (durationSec * 1000)).2

/-! Option validation and construction (options.go `Validate`, ratelimiter.go
`New`/`initStorage`). -/

/-- `Options.Validate`: reject nonpositive points/duration, default the block
duration, key prefix and strategy, then reject unknown strategies.  The
returned options carry the applied defaults (the Go method mutates in place). -/
def validateOptions (o : Options) : Except String Options :=
  if o.points ≤ 0 then .error "points must be positive"
  else if o.duration ≤ 0 then .error "duration must be positive"
  else
    let o1 := if o.blockDuration ≤ 0 then { o with blockDuration := o.duration } else o
    let o2 := if o1.keyPfx = "" then { o1 with keyPfx := "rl" } else o1
    let o3 := if o2.strategy = "" then { o2 with strategy := "token_bucket" } else o2
    if o3.strategy = "token_bucket" ∨ o3.strategy = "leaky_bucket" ∨
        o3.strategy = "fixed_window" ∨ o3.strategy = "sliding_window" then .ok o3
    else .error "invalid strategy"

/-- Character-list prefix test (Go internal of `strings.Contains`). -/
def listIsPfx : List Char → List Char → Bool
  | [], _ => true
  | _ :: _, [] => false
  | a :: as, b :: bs => a == b && listIsPfx as bs

/-- Character-list containment: some suffix starts with the pattern. -/
def listContains : List Char → List Char → Bool
  | [], pat => listIsPfx pat []
  | c :: t, pat => listIsPfx pat (c :: t) || listContains t pat

/-- Go `strings.Contains`: some suffix of `s` starts with `pat`. -/
def strContains (s pat : String) : Bool :=
  listContains s.data pat.data

/-- `isRedisClient`: the runtime type name contains `"redis"`. -/
def isRedisClientHandle (c : StoreClient) : Bool :=
  strContains (clientTypeName c) "redis"

/-- `isMemcachedClient`: the runtime type name contains `"memcache"`. -/
def isMemcachedClientHandle (c : StoreClient) : Bool :=
  strContains (clientTypeName c) "memcache"

/-- A selected storage backend. -/
inductive Backend
  | memory
  | redis
  | memcached
deriving DecidableEq

/-- `db.NewRedisStorageFromClient`: type assertion on `*redis.Client`. -/
def newRedisStorageFromClient : StoreClient → Except String Backend
  | .redisClient => .ok .redis
  | c => .error ("invalid client type: expected *redis.Client, got " ++ clientTypeName c)

/-- `db.NewMemcachedStorageFromClient`: type assertion on `*memcache.Client`. -/
def newMemcachedStorageFromClient : StoreClient → Except String Backend
  | .memcacheClient => .ok .memcached
  | c => .error ("invalid client type: expected *memcache.Client, got " ++ clientTypeName c)

/-- `initStorage` (ratelimiter.go): no client means memory; otherwise route by
explicit store type or auto-detection, and fall through to memory. -/
def initStorage (o : Options) : Except String Backend :=
  match o.storeClient with
  | none => .ok .memory
  | some c =>
    if o.storeType = "redis" ∨ isRedisClientHandle c = true then
      newRedisStorageFromClient c
    else if o.storeType = "memcached" ∨ isMemcachedClientHandle c = true then
      newMemcachedStorageFromClient c
    else .ok .memory

/-- `New` (ratelimiter.go): defaults for `nil` options, validation, then
storage initialization. -/
def rlNew (o? : Option Options) : Except String (Options × Backend) :=
  let o := o?.getD defaultOptions
  match validateOptions o with
  | .error e => .error e
  | .ok o1 =>
    match initStorage o1 with
    | .error e => .error e
    | .ok b => .ok (o1, b)

/-! Minimal models of the two remote key-value backends, for `Reset`.  Only key
presence matters for deletion, so the state is one association list. -/

/-- State of a remote key-value store: the set of present keys (with values). -/
abbrev KVState := List (String × Int)

/-- Redis `DEL` as used by the redis adapter's `Reset`: deleting an absent key
succeeds (DEL simply returns 0). -/
def redisDel (s : KVState) (k : String) : Except String Unit × KVState :=
  (.ok (), alDel s k)

/-- Models the external gomemcache client's `Delete`, forwarded unchanged by
`MemcachedClient.Reset` (internal/db/memcached.go): per the memcached protocol
a delete of an absent key reports `memcache: cache miss` (`ErrCacheMiss`), the
same error the adapter's other methods test for. -/
def memcachedDel (s : KVState) (k : String) : Except String Unit × KVState :=
  match alGet s k with
  | some _ => (.ok (), alDel s k)
  | none => (.error "memcache: cache miss", s)

/-- `RateLimiter.Reset` over a remote key-value backend given its delete
primitive: the three strategy keys' errors are discarded, the base key's
error is returned. -/
def rlResetKV (del : KVState → String → Except String Unit × KVState) (opts : Options)
    (s : KVState) (key : String) : Except String Unit × KVState :=
  let storageKey := buildKey opts key
  let s1 := (del s (storageKey ++ ":tb")).2
  let s2 := (del s1 (storageKey ++ ":lb")).2
  let s3 := (del s2 (storageKey ++ ":sw")).2
  del s3 storageKey

/-! Well-formedness of persisted state, as established by the engines
themselves; the universal theorems below take these as reachability
hypotheses. -/

/-- Invariants of a single persisted blob: token buckets carry nonnegative
tokens, rate and capacity and a refill stamp not in the future; leaky buckets
carry nonnegative per-item points summing to at most `points` and a
nonnegative drain rate; sliding windows hold at most `points` timestamps. -/
def WFBlob (opts : Options) (now : Int) : Blob → Prop
  | .tb d => 0 ≤ d.tokens ∧ 0 ≤ d.refillRate ∧ d.lastRefill ≤ now ∧ 0 ≤ d.capacity
  | .lb d => (∀ r ∈ d.queue, 0 ≤ r.points) ∧
      sumPoints d.queue ≤ opts.points ∧ 0 ≤ d.drainRate
  | .sw d => (d.requests.length : Int) ≤ opts.points

/-- Invariants of a whole in-memory store: every blob is well-formed and every
integer counter is nonnegative. -/
def WFStorage (opts : Options) (now : Int) (s : MemStorage) : Prop :=
  (∀ p ∈ s.jsonData, WFBlob opts now p.2) ∧ (∀ p ∈ s.data, 0 ≤ p.2)

/-- Reachable leaky-bucket blobs always have a nonempty queue and a nonzero
drain timestamp: `consumeLeakyBucket` appends an element and stamps
`last_drain = now` before every persist. -/
def LBPersisted (s : MemStorage) : Prop :=
  ∀ p ∈ s.jsonData, ∀ d, p.2 = Blob.lb d → d.queue ≠ [] ∧ d.lastDrain ≠ 0

/-! Concrete inputs used by the closed evaluation theorems below. -/

/-- A fixed-window configuration with 5 points per 10 seconds. -/
def c1opts : Options :=
  { points := 5, duration := 10, strategy := "fixed_window", blockDuration := 300,
    keyPfx := "rl", storeClient := none, storeType := "memory" }

/-- A sliding-window configuration with 5 points per second. -/
def c3opts : Options :=
  { points := 5, duration := 1, strategy := "sliding_window", blockDuration := 1,
    keyPfx := "rl", storeClient := none, storeType := "memory" }

/-- A token-bucket configuration with 3 points per second. -/
def c4opts : Options :=
  { points := 3, duration := 1, strategy := "token_bucket", blockDuration := 1,
    keyPfx := "rl", storeClient := none, storeType := "memory" }

/-- A drained token bucket: no tokens, refill rate 3/s, stamped at t = 1000 ms. -/
def c4data : TokenBucketData :=
  { tokens := 0, lastRefill := 1000, capacity := 3, refillRate := 3 }

/-- A store holding only `c4data` under the token-bucket key, unexpired. -/
def c4store : MemStorage :=
  { data := [], jsonData := [("rl:k:tb", .tb c4data)], expiry := [("rl:k:tb", 10000)] }

/-- A token-bucket configuration with 5 points per second. -/
def c8opts : Options :=
  { points := 5, duration := 1, strategy := "token_bucket", blockDuration := 1,
    keyPfx := "rl", storeClient := none, storeType := "memory" }

/-- A full token bucket stamped at t = 1000 ms. -/
def c8data : TokenBucketData :=
  { tokens := 5, lastRefill := 1000, capacity := 5, refillRate := 5 }

/-- A store holding only `c8data` under the token-bucket key, unexpired. -/
def c8store : MemStorage :=
  { data := [], jsonData := [("rl:k:tb", .tb c8data)], expiry := [("rl:k:tb", 1000000)] }

/-- A leaky-bucket configuration with 5 points per second. -/
def c5opts : Options :=
  { points := 5, duration := 1, strategy := "leaky_bucket", blockDuration := 1,
    keyPfx := "rl", storeClient := none, storeType := "memory" }

/-- A persisted leaky bucket with one queued one-point request. -/
def c5data : LeakyBucketData :=
  { queue := [{ timestamp := 500, points := 1 }], lastDrain := 500, drainRate := 5 }

/-- A store holding only `c5data` under the leaky-bucket key, unexpired. -/
def c5store : MemStorage :=
  { data := [], jsonData := [("rl:k:lb", .lb c5data)], expiry := [("rl:k:lb", 1000000)] }

/-- A valid configuration whose store type is unknown: the claim expects `New`
to reject it, the code falls back to the in-memory backend. -/
def c7opts : Options :=
  { points := 5, duration := 1, strategy := "token_bucket", blockDuration := 0,
    keyPfx := "rl", storeClient := none, storeType := "cassandra" }

end Strigo

namespace Strigo

/-! Helper lemmas about the association-list storage primitives. -/

theorem alGet_del_ne {α : Type} (l : List (String × α)) {k k' : String} (h : k' ≠ k) :
    alGet (alDel l k) k' = alGet l k' := by
  induction l with
  | nil => rfl
  | cons p t ih =>
    cases p with
    | mk pk pv =>
      by_cases hp : pk = k
      · have hkk : ¬ k = k' := fun hc => h hc.symm
        simp [alDel, alGet, hp, hkk, ih]
      · by_cases hpk : pk = k'
        · simp [alDel, alGet, hp, hpk, h]
        · simp [alDel, alGet, hp, hpk, ih]

theorem alGet_del_self {α : Type} (l : List (String × α)) (k : String) :
    alGet (alDel l k) k = none := by
  induction l with
  | nil => rfl
  | cons p t ih =>
    cases p with
    | mk pk pv =>
      by_cases hp : pk = k
      · simpa [alDel, hp] using ih
      · simpa [alDel, alGet, hp] using ih

theorem alGet_set_self {α : Type} (l : List (String × α)) (k : String) (v : α) :
    alGet (alSet l k v) k = some v := by
  simp [alSet, alGet]

theorem alGet_set_ne {α : Type} (l : List (String × α)) {k k' : String} (v : α) (h : k' ≠ k) :
    alGet (alSet l k v) k' = alGet l k' := by
  simp only [alSet, alGet]
  rw [if_neg (fun hc => h hc.symm)]
  exact alGet_del_ne l h

theorem alDel_of_get_none {α : Type} {l : List (String × α)} {k : String}
    (h : alGet l k = none) : alDel l k = l := by
  induction l with
  | nil => rfl
  | cons p t ih =>
    cases p with
    | mk pk pv =>
      simp only [alGet] at h
      by_cases hp : pk = k
      · rw [if_pos hp] at h
        cases h
      · rw [if_neg hp] at h
        simp [alDel, hp, ih h]

theorem alDel_del {α : Type} (l : List (String × α)) (k : String) :
    alDel (alDel l k) k = alDel l k :=
  alDel_of_get_none (alGet_del_self l k)

theorem alGet_mem {α : Type} {l : List (String × α)} {k : String} {v : α}
    (h : alGet l k = some v) : (k, v) ∈ l := by
  induction l with
  | nil => simp [alGet] at h
  | cons p t ih =>
    cases p with
    | mk pk pv =>
      simp only [alGet] at h
      by_cases hp : pk = k
      · rw [if_pos hp] at h
        cases h
        simp [hp]
      · rw [if_neg hp] at h
        exact List.mem_cons_of_mem _ (ih h)

/-! Helper lemmas about the Go `int64` truncation. -/

theorem goInt64_nonneg {q : ℚ} (h : 0 ≤ q) : 0 ≤ goInt64 q := by
  simp only [goInt64, if_pos h]
  exact Int.floor_nonneg.mpr h

theorem goInt64_eq_floor {q : ℚ} (h : 0 ≤ q) : goInt64 q = ⌊q⌋ := by
  simp [goInt64, if_pos h]

theorem goInt64_le_of_le {q : ℚ} {m : ℤ} (h : q ≤ (m : ℚ)) : goInt64 q ≤ m := by
  by_cases h0 : 0 ≤ q
  · rw [goInt64_eq_floor h0]
    have h2 := Int.floor_le_floor (α := ℚ) h
    simpa using h2
  · simp only [goInt64, if_neg h0]
    exact Int.ceil_le.mpr h

/-! Helper lemmas about queue draining. -/

theorem drainLoop_sublist (q : List QueuedRequest) (t d : Int) :
    List.Sublist (drainLoop q t d) q := by
  induction q generalizing d with
  | nil => simp [drainLoop]
  | cons r rest ih =>
    simp only [drainLoop]
    split
    · exact List.Sublist.refl _
    · exact List.Sublist.cons r (ih _)

theorem drainRequests_sublist (q : List QueuedRequest) (t : Int) :
    List.Sublist (drainRequests q t) q :=
  drainLoop_sublist q t 0

theorem drainRequests_points_nonneg {q : List QueuedRequest} {t : Int}
    (h : ∀ r ∈ q, 0 ≤ r.points) : ∀ r ∈ drainRequests q t, 0 ≤ r.points :=
  fun r hr => h r ((drainRequests_sublist q t).subset hr)

theorem drainRequests_sum_le {q : List QueuedRequest} {t : Int}
    (h : ∀ r ∈ q, 0 ≤ r.points) :
    sumPoints (drainRequests q t) ≤ sumPoints q := by
  refine List.Sublist.sum_le_sum (List.Sublist.map _ (drainRequests_sublist q t)) ?_
  intro a ha
  rcases List.mem_map.mp ha with ⟨r, hr, hra⟩
  exact hra ▸ h r hr

theorem sumPoints_nonneg {q : List QueuedRequest} (h : ∀ r ∈ q, 0 ≤ r.points) :
    0 ≤ sumPoints q := by
  induction q with
  | nil => simp [sumPoints]
  | cons r rest ih =>
    simp only [sumPoints, List.map_cons, List.sum_cons] at *
    have h1 := h r (by simp)
    have h2 := ih (fun x hx => h x (List.mem_cons_of_mem _ hx))
    omega

/-! Helper lemmas about the fixed window arithmetic. -/

theorem durMs_pos {opts : Options} (h : 0 < opts.duration) : 0 < durMs opts := by
  have h2 : (0 : Int) < 1000 := by norm_num
  simpa [durMs] using mul_pos h h2

theorem windowStartFixed_le {opts : Options} (now : Int) (h : 0 < opts.duration) :
    windowStartFixed opts now ≤ now := by
  have hm : 0 < durMs opts := durMs_pos h
  have h1 : durMs opts * Int.ediv now (durMs opts) + Int.emod now (durMs opts) = now :=
    Int.ediv_add_emod now (durMs opts)
  have h2 : 0 ≤ Int.emod now (durMs opts) := Int.emod_nonneg now (ne_of_gt hm)
  simp only [windowStartFixed]
  linarith

theorem lt_windowStartFixed_add {opts : Options} (now : Int) (h : 0 < opts.duration) :
    now < windowStartFixed opts now + durMs opts := by
  have hm : 0 < durMs opts := durMs_pos h
  have h1 : durMs opts * Int.ediv now (durMs opts) + Int.emod now (durMs opts) = now :=
    Int.ediv_add_emod now (durMs opts)
  have h2 : Int.emod now (durMs opts) < durMs opts := Int.emod_lt_of_pos now hm
  simp only [windowStartFixed]
  linarith

/-! Helper lemmas about strings and numeral keys: the per-window counter key
`{base}:{unix}` never collides with `{base}`, `{base}:tb`, `{base}:lb` or
`{base}:sw`, because a decimal numeral contains no letter. -/

theorem strApp_data (a b : String) : (a ++ b).data = a.data ++ b.data :=
  String.data_append a b

theorem strApp_ne_left (s t : String) (h : t.data ≠ []) : s ++ t ≠ s := by
  intro hc
  have hd := congrArg String.data hc
  rw [strApp_data] at hd
  have : t.data = [] := by
    have hlen := congrArg List.length hd
    simp at hlen
    exact List.length_eq_zero.mp hlen
  exact h this

theorem strApp_right_inj {s a b : String} (h : s ++ a = s ++ b) : a = b := by
  have hd := congrArg String.data h
  rw [strApp_data, strApp_data] at hd
  have h2 := List.append_cancel_left hd
  cases a
  cases b
  exact congrArg String.mk h2

theorem digitChar_isDigit {m : Nat} (h : m < 10) : (Nat.digitChar m).isDigit = true := by
  interval_cases m <;> rfl

theorem mem_toDigitsCore {c : Char} (f : Nat) :
    ∀ (n : Nat) (ds : List Char), c ∈ Nat.toDigitsCore 10 f n ds →
      c ∈ ds ∨ c.isDigit = true := by
  induction f with
  | zero => intro n ds hc; exact .inl hc
  | succ f ih =>
    intro n ds hc
    simp only [Nat.toDigitsCore] at hc
    have hdig : (Nat.digitChar (n % 10)).isDigit = true :=
      digitChar_isDigit (Nat.mod_lt _ (by norm_num))
    by_cases h0 : n / 10 = 0
    · rw [if_pos h0] at hc
      rcases List.mem_cons.mp hc with hc | hc
      · exact .inr (hc ▸ hdig)
      · exact .inl hc
    · rw [if_neg h0] at hc
      rcases ih _ _ hc with hc | hc
      · rcases List.mem_cons.mp hc with hc | hc
        · exact .inr (hc ▸ hdig)
        · exact .inl hc
      · exact .inr hc

theorem natRepr_digits {n : Nat} {c : Char} (hc : c ∈ (Nat.repr n).data) :
    c.isDigit = true := by
  have hc2 : c ∈ Nat.toDigitsCore 10 (n + 1) n [] := hc
  rcases mem_toDigitsCore (n + 1) n [] hc2 with h | h
  · simp at h
  · exact h

theorem intRepr_chars {i : Int} {c : Char} (hc : c ∈ (Int.repr i).data) :
    c.isDigit = true ∨ c = '-' := by
  cases i with
  | ofNat n => exact .inl (natRepr_digits hc)
  | negSucc n =>
    have hc2 : c ∈ ("-" ++ Nat.repr n.succ).data := hc
    rw [strApp_data] at hc2
    rcases List.mem_append.mp hc2 with h | h
    · right
      simpa using h
    · exact .inl (natRepr_digits h)

theorem intRepr_ne (i : Int) (s : String) (c : Char) (hc : c ∈ s.data)
    (h1 : c.isDigit = false) (h2 : ¬ c = '-') : Int.repr i ≠ s := by
  intro he
  rcases intRepr_chars (he ▸ hc) with h | h
  · rw [h1] at h; cases h
  · exact h2 h

theorem toString_int_ne_tb (i : Int) : (":" ++ toString i : String) ≠ ":tb" := by
  intro h
  have h2 : toString i = "tb" := strApp_right_inj (a := toString i) (b := "tb") h
  exact intRepr_ne i "tb" 't' (by decide) (by decide) (by decide) h2

theorem toString_int_ne_lb (i : Int) : (":" ++ toString i : String) ≠ ":lb" := by
  intro h
  have h2 : toString i = "lb" := strApp_right_inj (a := toString i) (b := "lb") h
  exact intRepr_ne i "lb" 'l' (by decide) (by decide) (by decide) h2

theorem toString_int_ne_sw (i : Int) : (":" ++ toString i : String) ≠ ":sw" := by
  intro h
  have h2 : toString i = "sw" := strApp_right_inj (a := toString i) (b := "sw") h
  exact intRepr_ne i "sw" 's' (by decide) (by decide) (by decide) h2

theorem windowKeyOf_ne_base (sk : String) (opts : Options) (now : Int) :
    windowKeyOf sk opts now ≠ sk := by
  simp only [windowKeyOf]
  rw [String.append_assoc]
  refine strApp_ne_left sk (":" ++ toString (windowUnix opts now)) ?_
  rw [strApp_data]
  simp

theorem windowKeyOf_ne_tb (sk : String) (opts : Options) (now : Int) :
    windowKeyOf sk opts now ≠ sk ++ ":tb" := by
  simp only [windowKeyOf]
  rw [String.append_assoc]
  intro h
  exact toString_int_ne_tb _ (strApp_right_inj h)

theorem windowKeyOf_ne_lb (sk : String) (opts : Options) (now : Int) :
    windowKeyOf sk opts now ≠ sk ++ ":lb" := by
  simp only [windowKeyOf]
  rw [String.append_assoc]
  intro h
  exact toString_int_ne_lb _ (strApp_right_inj h)

theorem windowKeyOf_ne_sw (sk : String) (opts : Options) (now : Int) :
    windowKeyOf sk opts now ≠ sk ++ ":sw" := by
  simp only [windowKeyOf]
  rw [String.append_assoc]
  intro h
  exact toString_int_ne_sw _ (strApp_right_inj h)


/-! Transfer lemmas from storage well-formedness to the typed readers. -/

theorem memGetJSON_some {now : Int} {s : MemStorage} {key : String} {b : Blob}
    (h : memGetJSON now s key = some b) : alGet s.jsonData key = some b := by
  unfold memGetJSON at h
  split at h
  · cases h
  · exact h

theorem readTB_wf {opts : Options} {now : Int} {s : MemStorage} (key : String)
    (hwf : WFStorage opts now s) (h0 : 0 ≤ now) :
    0 ≤ (readTB now s key).tokens ∧ 0 ≤ (readTB now s key).refillRate ∧
    (readTB now s key).lastRefill ≤ now ∧ 0 ≤ (readTB now s key).capacity := by
  unfold readTB
  cases hm : memGetJSON now s key with
  | none => simp [zeroTB, h0]
  | some b =>
    cases b with
    | tb d =>
      have hmem := alGet_mem (memGetJSON_some hm)
      have hb := hwf.1 _ hmem
      exact hb
    | lb d => simp [zeroTB, h0]
    | sw d => simp [zeroTB, h0]

theorem readLB_wf {opts : Options} {now : Int} {s : MemStorage} (key : String)
    (hwf : WFStorage opts now s) (hP : 0 ≤ opts.points) :
    (∀ r ∈ (readLB now s key).queue, 0 ≤ r.points) ∧
    sumPoints (readLB now s key).queue ≤ opts.points ∧
    0 ≤ (readLB now s key).drainRate := by
  unfold readLB
  cases hm : memGetJSON now s key with
  | none => simp [zeroLB, sumPoints, hP]
  | some b =>
    cases b with
    | lb d =>
      have hmem := alGet_mem (memGetJSON_some hm)
      exact hwf.1 _ hmem
    | tb d => simp [zeroLB, sumPoints, hP]
    | sw d => simp [zeroLB, sumPoints, hP]

theorem readSW_wf {opts : Options} {now : Int} {s : MemStorage} (key : String)
    (hwf : WFStorage opts now s) (hP : 0 ≤ opts.points) :
    (((readSW now s key).requests.length : Int)) ≤ opts.points := by
  unfold readSW
  cases hm : memGetJSON now s key with
  | none => simpa [zeroSW] using hP
  | some b =>
    cases b with
    | sw d =>
      have hmem := alGet_mem (memGetJSON_some hm)
      exact hwf.1 _ hmem
    | tb d => simpa [zeroSW] using hP
    | lb d => simpa [zeroSW] using hP

theorem memGet_nonneg {opts : Options} {now : Int} {s : MemStorage} (key : String)
    (hwf : WFStorage opts now s) : 0 ≤ memGet now s key := by
  unfold memGet
  split
  · omega
  · cases hg : alGet s.data key with
    | none => simp
    | some v =>
      have := hwf.2 _ (alGet_mem hg)
      simpa using this

theorem memGet_congr {s1 s2 : MemStorage} (now : Int) (key : String)
    (hd : alGet s1.data key = alGet s2.data key)
    (he : alGet s1.expiry key = alGet s2.expiry key) :
    memGet now s1 key = memGet now s2 key := by
  unfold memGet memExpired
  rw [hd, he]

theorem memGet_increment_self (now : Int) (s : MemStorage) (key : String) (a ttl : Int)
    (httl : 0 ≤ ttl) :
    memGet now (memIncrement now s key a ttl).2 key = memGet now s key + a := by
  have hnn : ¬ ttl < 0 := by omega
  by_cases he : memExpired s now key
  · have he2 : (match alGet s.expiry key with
        | some exp => decide (exp < now)
        | none => false) = true := he
    simp [memIncrement, memGet, memExpired, he2, alGet_set_self, alGet_del_self, hnn]
  · have he2 : ¬ (match alGet s.expiry key with
        | some exp => decide (exp < now)
        | none => false) = true := he
    simp [memIncrement, memGet, memExpired, he2, alGet_set_self, hnn]

/-! C10: `Reset` and the fixed-window counter key. -/

theorem rlReset_data (opts : Options) (s : MemStorage) (key : String) :
    (rlReset opts s key).data =
      alDel (alDel (alDel (alDel s.data (buildKey opts key ++ ":tb"))
        (buildKey opts key ++ ":lb")) (buildKey opts key ++ ":sw")) (buildKey opts key) := rfl

theorem rlReset_expiry (opts : Options) (s : MemStorage) (key : String) :
    (rlReset opts s key).expiry =
      alDel (alDel (alDel (alDel s.expiry (buildKey opts key ++ ":tb"))
        (buildKey opts key ++ ":lb")) (buildKey opts key ++ ":sw")) (buildKey opts key) := rfl

theorem rlReset_jsonData (opts : Options) (s : MemStorage) (key : String) :
    (rlReset opts s key).jsonData =
      alDel (alDel (alDel (alDel s.jsonData (buildKey opts key ++ ":tb"))
        (buildKey opts key ++ ":lb")) (buildKey opts key ++ ":sw")) (buildKey opts key) := rfl

theorem rlReset_eq (opts : Options) (s : MemStorage) (key : String) :
    rlReset opts s key =
      { data := (rlReset opts s key).data,
        jsonData := (rlReset opts s key).jsonData,
        expiry := (rlReset opts s key).expiry } := rfl

theorem rlResetKV_redis (opts : Options) (s : KVState) (key : String) :
    rlResetKV redisDel opts s key =
      (.ok (), alDel (alDel (alDel (alDel s (buildKey opts key ++ ":tb"))
        (buildKey opts key ++ ":lb")) (buildKey opts key ++ ":sw")) (buildKey opts key)) := rfl

theorem memcachedDel_state (s : KVState) (k : String) : (memcachedDel s k).2 = alDel s k := by
  unfold memcachedDel
  cases h : alGet s k
  · simp [alDel_of_get_none h]
  · rfl

theorem rlResetKV_memcached_state (opts : Options) (s : KVState) (key : String) :
    (rlResetKV memcachedDel opts s key).2 =
      alDel (alDel (alDel (alDel s (buildKey opts key ++ ":tb"))
        (buildKey opts key ++ ":lb")) (buildKey opts key ++ ":sw")) (buildKey opts key) := by
  unfold rlResetKV
  rw [memcachedDel_state, memcachedDel_state, memcachedDel_state, memcachedDel_state]

theorem memGet_reset_window (opts : Options) (s : MemStorage) (key : String) (now : Int) :
    memGet now (rlReset opts s key) (windowKeyOf (buildKey opts key) opts now) =
      memGet now s (windowKeyOf (buildKey opts key) opts now) := by
  have h1 := windowKeyOf_ne_base (buildKey opts key) opts now
  have h2 := windowKeyOf_ne_tb (buildKey opts key) opts now
  have h3 := windowKeyOf_ne_lb (buildKey opts key) opts now
  have h4 := windowKeyOf_ne_sw (buildKey opts key) opts now
  refine memGet_congr now _ ?_ ?_
  · rw [rlReset_data, alGet_del_ne _ h1, alGet_del_ne _ h4, alGet_del_ne _ h3,
      alGet_del_ne _ h2]
  · rw [rlReset_expiry, alGet_del_ne _ h1, alGet_del_ne _ h4, alGet_del_ne _ h3,
      alGet_del_ne _ h2]


/-- C10: `Reset(key)` deletes only the base key and the `:tb`/`:lb`/`:sw`
variants, never the fixed-window per-window counter key
`{base}:{window_start_unix}` (whose numeral suffix cannot equal a strategy
tag); consequently a fixed-window `Consume(key, cost)` after `Reset(key)`
within the same window reads the same counter and returns the same result as
if `Reset` had not been called. -/
theorem claim_C10 (opts : Options) (s : MemStorage) (key : String) (now : Int) (pts : Int) :
    memGet now (rlReset opts s key) (windowKeyOf (buildKey opts key) opts now) =
      memGet now s (windowKeyOf (buildKey opts key) opts now) ∧
    (consumeFixedWindow opts now (rlReset opts s key) key pts).1 =
      (consumeFixedWindow opts now s key pts).1 := by
  refine ⟨memGet_reset_window opts s key now, ?_⟩
  simp only [consumeFixedWindow, memGet_reset_window]
  by_cases hc : memGet now s (windowKeyOf (buildKey opts key) opts now) + pts ≤ opts.points
  · simp [hc]
  · simp [hc]

/-- C1 (evaluation at the failing input): on a fresh fixed-window limiter with
5 points per 10 seconds, `Block("spam", 300)` at t = 1000 s writes 1005 to the
`:block` key, yet `Consume("spam", 1)` one second later is allowed: the
fixed-window consume path never consults the `:block` key. -/
theorem claim_C1_eval :
    (rlConsume c1opts 1001000 (rlBlock c1opts 1000000 emptyStore "spam" 300) "spam" 1).toOption.map
        (fun p => p.1.allowed) = some true ∧
    memGet 1001000 (rlBlock c1opts 1000000 emptyStore "spam" 300) "rl:spam:block" = 1005 := by
  constructor
  · decide
  · decide

/-- C3 counterexample: under the sliding window with 5 points per second and an
empty recorded-request sequence, `Consume(k, 6)` is denied and yet
`ms_before_next = 0`, refuting "allowed = false implies ms_before_next > 0". -/
theorem claim_C3_cex :
    (rlConsume c3opts 1000 emptyStore "k" 6).toOption.map
        (fun p => (p.1.allowed, p.1.msBeforeNext)) = some (false, 0) := by
  decide

/-- C6 counterexample: on the Memcached backend, `Reset` of a key with no
stored state returns the cache-miss error raised when deleting the absent base
key, refuting "succeeds when any of those keys is missing" for every backend
(and with it identical behaviour of two consecutive Resets). -/
theorem claim_C6_cex :
    (rlResetKV memcachedDel c1opts [] "k").1 = .error "memcache: cache miss" := rfl

/-- C7 counterexample: a configuration with valid points, duration and strategy
but unknown store type "cassandra" is accepted by `New` (it falls back to the
in-memory backend), refuting "returns a ConfigError for an unknown store
type". -/
theorem claim_C7_cex : (rlNew (some c7opts)).isOk = true := rfl


/-! Key disequalities and per-backend delete facts used for `Reset`. -/

theorem suffix_ne (sk : String) {a b : String} (hab : a ≠ b) : sk ++ a ≠ sk ++ b :=
  fun h => hab (strApp_right_inj h)

theorem base_ne_tb (sk : String) : sk ≠ sk ++ ":tb" :=
  fun h => strApp_ne_left sk ":tb" (by decide) h.symm

theorem base_ne_lb (sk : String) : sk ≠ sk ++ ":lb" :=
  fun h => strApp_ne_left sk ":lb" (by decide) h.symm

theorem base_ne_sw (sk : String) : sk ≠ sk ++ ":sw" :=
  fun h => strApp_ne_left sk ":sw" (by decide) h.symm

theorem memcachedDel_get_self (s : KVState) (k : String) :
    alGet (memcachedDel s k).2 k = none := by
  unfold memcachedDel
  cases h : alGet s k
  · simpa using h
  · simp [alGet_del_self]

theorem memcachedDel_get_ne (s : KVState) {k k' : String} (h : k' ≠ k) :
    alGet (memcachedDel s k).2 k' = alGet s k' := by
  unfold memcachedDel
  cases hg : alGet s k
  · simp
  · simp [alGet_del_ne _ h]

theorem memcachedDel_of_absent {s : KVState} {k : String} (h : alGet s k = none) :
    memcachedDel s k = (.error "memcache: cache miss", s) := by
  unfold memcachedDel
  rw [h]

theorem memcachedDel_ok_iff (s : KVState) (k : String) :
    ((memcachedDel s k).1 = .ok ()) ↔ (alGet s k).isSome = true := by
  unfold memcachedDel
  cases h : alGet s k <;> simp

/-- C6 (amended): on every backend `Reset(k)` removes `{base}`, `{base}:tb`,
`{base}:lb` and `{base}:sw`, discarding errors from the three suffixed
deletions.  On the memory and Redis backends it always succeeds and a second
`Reset` leaves state and result unchanged.  On the Memcached backend the error
of the final base-key deletion is propagated: `Reset` succeeds iff `{base}`
was present, and the second of two consecutive `Reset`s returns the
cache-miss error (though the stored state is still the same). -/
theorem claim_C6_amended (opts : Options) (key : String) :
    (∀ s : MemStorage,
      alGet (rlReset opts s key).data (buildKey opts key) = none ∧
      alGet (rlReset opts s key).data (buildKey opts key ++ ":tb") = none ∧
      alGet (rlReset opts s key).data (buildKey opts key ++ ":lb") = none ∧
      alGet (rlReset opts s key).data (buildKey opts key ++ ":sw") = none ∧
      alGet (rlReset opts s key).jsonData (buildKey opts key) = none ∧
      alGet (rlReset opts s key).jsonData (buildKey opts key ++ ":tb") = none ∧
      alGet (rlReset opts s key).jsonData (buildKey opts key ++ ":lb") = none ∧
      alGet (rlReset opts s key).jsonData (buildKey opts key ++ ":sw") = none ∧
      rlReset opts (rlReset opts s key) key = rlReset opts s key) ∧
    (∀ s : KVState,
      (rlResetKV redisDel opts s key).1 = .ok () ∧
      alGet (rlResetKV redisDel opts s key).2 (buildKey opts key) = none ∧
      alGet (rlResetKV redisDel opts s key).2 (buildKey opts key ++ ":tb") = none ∧
      alGet (rlResetKV redisDel opts s key).2 (buildKey opts key ++ ":lb") = none ∧
      alGet (rlResetKV redisDel opts s key).2 (buildKey opts key ++ ":sw") = none ∧
      rlResetKV redisDel opts (rlResetKV redisDel opts s key).2 key =
        (.ok (), (rlResetKV redisDel opts s key).2)) ∧
    (∀ s : KVState,
      alGet (rlResetKV memcachedDel opts s key).2 (buildKey opts key) = none ∧
      alGet (rlResetKV memcachedDel opts s key).2 (buildKey opts key ++ ":tb") = none ∧
      alGet (rlResetKV memcachedDel opts s key).2 (buildKey opts key ++ ":lb") = none ∧
      alGet (rlResetKV memcachedDel opts s key).2 (buildKey opts key ++ ":sw") = none ∧
      ((rlResetKV memcachedDel opts s key).1 = .ok () ↔
        (alGet s (buildKey opts key)).isSome = true) ∧
      (rlResetKV memcachedDel opts (rlResetKV memcachedDel opts s key).2 key).1 =
        .error "memcache: cache miss" ∧
      (rlResetKV memcachedDel opts (rlResetKV memcachedDel opts s key).2 key).2 =
        (rlResetKV memcachedDel opts s key).2) := by
  have htb : buildKey opts key ++ ":tb" ≠ buildKey opts key := strApp_ne_left _ _ (by decide)
  have hlb : buildKey opts key ++ ":lb" ≠ buildKey opts key := strApp_ne_left _ _ (by decide)
  have hsw : buildKey opts key ++ ":sw" ≠ buildKey opts key := strApp_ne_left _ _ (by decide)
  have hbt : buildKey opts key ≠ buildKey opts key ++ ":tb" := base_ne_tb _
  have hbl : buildKey opts key ≠ buildKey opts key ++ ":lb" := base_ne_lb _
  have hbs : buildKey opts key ≠ buildKey opts key ++ ":sw" := base_ne_sw _
  have htl : buildKey opts key ++ ":tb" ≠ buildKey opts key ++ ":lb" := suffix_ne _ (by decide)
  have hts : buildKey opts key ++ ":tb" ≠ buildKey opts key ++ ":sw" := suffix_ne _ (by decide)
  have hlt : buildKey opts key ++ ":lb" ≠ buildKey opts key ++ ":tb" := suffix_ne _ (by decide)
  have hls : buildKey opts key ++ ":lb" ≠ buildKey opts key ++ ":sw" := suffix_ne _ (by decide)
  have hst : buildKey opts key ++ ":sw" ≠ buildKey opts key ++ ":tb" := suffix_ne _ (by decide)
  have hsl : buildKey opts key ++ ":sw" ≠ buildKey opts key ++ ":lb" := suffix_ne _ (by decide)
  refine ⟨?_, ?_, ?_⟩
  · intro s
    have hd0 : alGet (rlReset opts s key).data (buildKey opts key) = none :=
      alGet_del_self _ _
    have hd1 : alGet (rlReset opts s key).data (buildKey opts key ++ ":tb") = none := by
      rw [rlReset_data, alGet_del_ne _ htb, alGet_del_ne _ hts, alGet_del_ne _ htl,
        alGet_del_self]
    have hd2 : alGet (rlReset opts s key).data (buildKey opts key ++ ":lb") = none := by
      rw [rlReset_data, alGet_del_ne _ hlb, alGet_del_ne _ hls, alGet_del_self]
    have hd3 : alGet (rlReset opts s key).data (buildKey opts key ++ ":sw") = none := by
      rw [rlReset_data, alGet_del_ne _ hsw, alGet_del_self]
    have hj0 : alGet (rlReset opts s key).jsonData (buildKey opts key) = none :=
      alGet_del_self _ _
    have hj1 : alGet (rlReset opts s key).jsonData (buildKey opts key ++ ":tb") = none := by
      rw [rlReset_jsonData, alGet_del_ne _ htb, alGet_del_ne _ hts, alGet_del_ne _ htl,
        alGet_del_self]
    have hj2 : alGet (rlReset opts s key).jsonData (buildKey opts key ++ ":lb") = none := by
      rw [rlReset_jsonData, alGet_del_ne _ hlb, alGet_del_ne _ hls, alGet_del_self]
    have hj3 : alGet (rlReset opts s key).jsonData (buildKey opts key ++ ":sw") = none := by
      rw [rlReset_jsonData, alGet_del_ne _ hsw, alGet_del_self]
    have he0 : alGet (rlReset opts s key).expiry (buildKey opts key) = none :=
      alGet_del_self _ _
    have he1 : alGet (rlReset opts s key).expiry (buildKey opts key ++ ":tb") = none := by
      rw [rlReset_expiry, alGet_del_ne _ htb, alGet_del_ne _ hts, alGet_del_ne _ htl,
        alGet_del_self]
    have he2 : alGet (rlReset opts s key).expiry (buildKey opts key ++ ":lb") = none := by
      rw [rlReset_expiry, alGet_del_ne _ hlb, alGet_del_ne _ hls, alGet_del_self]
    have he3 : alGet (rlReset opts s key).expiry (buildKey opts key ++ ":sw") = none := by
      rw [rlReset_expiry, alGet_del_ne _ hsw, alGet_del_self]
    refine ⟨hd0, hd1, hd2, hd3, hj0, hj1, hj2, hj3, ?_⟩
    rw [rlReset_eq opts (rlReset opts s key) key]
    rw [rlReset_data (s := rlReset opts s key), alDel_of_get_none hd1, alDel_of_get_none hd2,
      alDel_of_get_none hd3, alDel_of_get_none hd0]
    rw [rlReset_jsonData (s := rlReset opts s key), alDel_of_get_none hj1,
      alDel_of_get_none hj2, alDel_of_get_none hj3, alDel_of_get_none hj0]
    rw [rlReset_expiry (s := rlReset opts s key), alDel_of_get_none he1,
      alDel_of_get_none he2, alDel_of_get_none he3, alDel_of_get_none he0]
  · intro s
    have hg0 : alGet (rlResetKV redisDel opts s key).2 (buildKey opts key) = none := by
      rw [rlResetKV_redis]
      exact alGet_del_self _ _
    have hg1 : alGet (rlResetKV redisDel opts s key).2 (buildKey opts key ++ ":tb") = none := by
      rw [rlResetKV_redis]
      show alGet (alDel _ _) _ = none
      rw [alGet_del_ne _ htb, alGet_del_ne _ hts, alGet_del_ne _ htl, alGet_del_self]
    have hg2 : alGet (rlResetKV redisDel opts s key).2 (buildKey opts key ++ ":lb") = none := by
      rw [rlResetKV_redis]
      show alGet (alDel _ _) _ = none
      rw [alGet_del_ne _ hlb, alGet_del_ne _ hls, alGet_del_self]
    have hg3 : alGet (rlResetKV redisDel opts s key).2 (buildKey opts key ++ ":sw") = none := by
      rw [rlResetKV_redis]
      show alGet (alDel _ _) _ = none
      rw [alGet_del_ne _ hsw, alGet_del_self]
    refine ⟨by rw [rlResetKV_redis], hg0, hg1, hg2, hg3, ?_⟩
    rw [rlResetKV_redis opts (rlResetKV redisDel opts s key).2 key]
    rw [alDel_of_get_none hg1, alDel_of_get_none hg2, alDel_of_get_none hg3,
      alDel_of_get_none hg0]
  · intro s
    have hst0 : alGet (rlResetKV memcachedDel opts s key).2 (buildKey opts key) = none := by
      rw [rlResetKV_memcached_state]
      exact alGet_del_self _ _
    have hst1 : alGet (rlResetKV memcachedDel opts s key).2 (buildKey opts key ++ ":tb") = none := by
      rw [rlResetKV_memcached_state, alGet_del_ne _ htb, alGet_del_ne _ hts,
        alGet_del_ne _ htl, alGet_del_self]
    have hst2 : alGet (rlResetKV memcachedDel opts s key).2 (buildKey opts key ++ ":lb") = none := by
      rw [rlResetKV_memcached_state, alGet_del_ne _ hlb, alGet_del_ne _ hls, alGet_del_self]
    have hst3 : alGet (rlResetKV memcachedDel opts s key).2 (buildKey opts key ++ ":sw") = none := by
      rw [rlResetKV_memcached_state, alGet_del_ne _ hsw, alGet_del_self]
    have hbase : alGet ((memcachedDel ((memcachedDel ((memcachedDel s
        (buildKey opts key ++ ":tb")).2) (buildKey opts key ++ ":lb")).2)
        (buildKey opts key ++ ":sw")).2) (buildKey opts key) = alGet s (buildKey opts key) := by
      rw [memcachedDel_get_ne _ hbs, memcachedDel_get_ne _ hbl, memcachedDel_get_ne _ hbt]
    refine ⟨hst0, hst1, hst2, hst3, ?_, ?_, ?_⟩
    · show (memcachedDel _ (buildKey opts key)).1 = .ok () ↔ _
      rw [memcachedDel_ok_iff, hbase]
    · have habs : alGet (memcachedDel (memcachedDel (memcachedDel
          (rlResetKV memcachedDel opts s key).2 (buildKey opts key ++ ":tb")).2
          (buildKey opts key ++ ":lb")).2 (buildKey opts key ++ ":sw")).2
          (buildKey opts key) = none := by
        rw [memcachedDel_get_ne _ hbs, memcachedDel_get_ne _ hbl, memcachedDel_get_ne _ hbt]
        exact hst0
      show (memcachedDel (memcachedDel (memcachedDel (memcachedDel
          (rlResetKV memcachedDel opts s key).2 (buildKey opts key ++ ":tb")).2
          (buildKey opts key ++ ":lb")).2 (buildKey opts key ++ ":sw")).2
          (buildKey opts key)).1 = .error "memcache: cache miss"
      rw [memcachedDel_of_absent habs]
    · rw [rlResetKV_memcached_state opts (rlResetKV memcachedDel opts s key).2 key]
      rw [alDel_of_get_none hst1, alDel_of_get_none hst2, alDel_of_get_none hst3,
        alDel_of_get_none hst0]

theorem validateOptions_ok_exists (o : Options) (hp : ¬ o.points ≤ 0) (hd : ¬ o.duration ≤ 0)
    (hs : o.strategy = "" ∨ o.strategy = "token_bucket" ∨ o.strategy = "leaky_bucket" ∨
      o.strategy = "fixed_window" ∨ o.strategy = "sliding_window") :
    ∃ o3, validateOptions o = .ok o3 ∧ o3.storeClient = o.storeClient ∧
      o3.storeType = o.storeType := by
  simp only [validateOptions, hp, hd, if_false]
  split_ifs <;>
    first
      | exact ⟨_, rfl, by simp, by simp⟩
      | (exfalso; simp_all)

theorem validateOptions_fail (o : Options) (hp : ¬ o.points ≤ 0) (hd : ¬ o.duration ≤ 0)
    (hs : ¬ (o.strategy = "" ∨ o.strategy = "token_bucket" ∨ o.strategy = "leaky_bucket" ∨
      o.strategy = "fixed_window" ∨ o.strategy = "sliding_window")) :
    validateOptions o = .error "invalid strategy" := by
  simp only [validateOptions, hp, hd, if_false]
  push_neg at hs
  split_ifs <;> simp_all


theorem isRedis_redisClient : isRedisClientHandle .redisClient = true := by decide

theorem isRedis_memcacheClient : isRedisClientHandle .memcacheClient = false := by decide

theorem isMem_memcacheClient : isMemcachedClientHandle .memcacheClient = true := by decide

/-- C7 (amended): `New(options)` fails exactly for nonpositive points,
nonpositive duration, an unknown nonempty strategy, or a store client that is
routed to the redis/memcached adapter (by explicit store type or type-name
detection) but fails its concrete type assertion; an unknown store type alone
is accepted and falls back to the in-memory backend. -/
theorem claim_C7_amended (o : Options) :
    (rlNew (some o)).isOk = false ↔
      (o.points ≤ 0 ∨ o.duration ≤ 0 ∨
        (¬ o.strategy = "" ∧ ¬ o.strategy = "token_bucket" ∧ ¬ o.strategy = "leaky_bucket" ∧
          ¬ o.strategy = "fixed_window" ∧ ¬ o.strategy = "sliding_window") ∨
        (∃ c, o.storeClient = some c ∧
          (((o.storeType = "redis" ∨ isRedisClientHandle c = true) ∧ c ≠ .redisClient) ∨
            (¬ (o.storeType = "redis" ∨ isRedisClientHandle c = true) ∧
              (o.storeType = "memcached" ∨ isMemcachedClientHandle c = true) ∧
              c ≠ .memcacheClient)))) := by
  by_cases hp : o.points ≤ 0
  · have hL : (rlNew (some o)).isOk = false := by
      simp [rlNew, validateOptions, hp, Except.isOk, Except.toBool]
    exact iff_of_true hL (.inl hp)
  by_cases hd : o.duration ≤ 0
  · have hL : (rlNew (some o)).isOk = false := by
      simp [rlNew, validateOptions, hp, hd, Except.isOk, Except.toBool]
    exact iff_of_true hL (.inr (.inl hd))
  by_cases hs : o.strategy = "" ∨ o.strategy = "token_bucket" ∨ o.strategy = "leaky_bucket" ∨
      o.strategy = "fixed_window" ∨ o.strategy = "sliding_window"
  case neg =>
    have hL : (rlNew (some o)).isOk = false := by
      simp [rlNew, validateOptions_fail o hp hd hs, Except.isOk, Except.toBool]
    push_neg at hs
    exact iff_of_true hL (.inr (.inr (.inl hs)))
  obtain ⟨o3, hval, hsc, hst⟩ := validateOptions_ok_exists o hp hd hs
  have hnew : rlNew (some o) =
      (match initStorage o3 with
        | .error e => .error e
        | .ok b => .ok (o3, b)) := by
    simp [rlNew, hval]
  cases hc : o.storeClient with
  | none =>
    have hinit : initStorage o3 = .ok .memory := by
      simp [initStorage, hsc, hc]
    have hL : (rlNew (some o)).isOk = true := by
      rw [hnew, hinit]
      rfl
    refine iff_of_false (by simp [hL]) ?_
    rintro (h | h | h | ⟨c, hcc, _⟩)
    · exact hp h
    · exact hd h
    · rcases hs with h5 | h5 | h5 | h5 | h5 <;> simp_all
    · cases hcc
  | some c =>
    cases c with
    | redisClient =>
      have hinit : initStorage o3 = .ok .redis := by
        simp [initStorage, hsc, hc, isRedis_redisClient, newRedisStorageFromClient]
      have hL : (rlNew (some o)).isOk = true := by
        rw [hnew, hinit]
        rfl
      refine iff_of_false (by simp [hL]) ?_
      rintro (h | h | h | ⟨c', hcc, hroute⟩)
      · exact hp h
      · exact hd h
      · rcases hs with h5 | h5 | h5 | h5 | h5 <;> simp_all
      · cases hcc
        rcases hroute with ⟨_, hne⟩ | ⟨hnr, _, _⟩
        · exact hne rfl
        · exact hnr (.inr isRedis_redisClient)
    | memcacheClient =>
      by_cases hrt : o.storeType = "redis"
      · have hinit : initStorage o3 = .error
            ("invalid client type: expected *redis.Client, got " ++
              clientTypeName .memcacheClient) := by
          simp [initStorage, hsc, hc, hst, hrt, newRedisStorageFromClient]
        have hL : (rlNew (some o)).isOk = false := by
          rw [hnew, hinit]
          rfl
        refine iff_of_true hL (.inr (.inr (.inr ⟨.memcacheClient, rfl, .inl ⟨.inl hrt, by simp⟩⟩)))
      · have hinit : initStorage o3 = .ok .memcached := by
          simp [initStorage, hsc, hc, hst, hrt, isRedis_memcacheClient, isMem_memcacheClient,
            newMemcachedStorageFromClient]
        have hL : (rlNew (some o)).isOk = true := by
          rw [hnew, hinit]
          rfl
        refine iff_of_false (by simp [hL]) ?_
        rintro (h | h | h | ⟨c', hcc, hroute⟩)
        · exact hp h
        · exact hd h
        · rcases hs with h5 | h5 | h5 | h5 | h5 <;> simp_all
        · cases hcc
          rcases hroute with ⟨hr, _⟩ | ⟨_, _, hne⟩
          · rcases hr with hr | hr
            · exact hrt hr
            · rw [isRedis_memcacheClient] at hr
              cases hr
          · exact hne rfl
    | other t =>
      by_cases hb1 : o.storeType = "redis" ∨ isRedisClientHandle (.other t) = true
      · have hinit : initStorage o3 = .error
            ("invalid client type: expected *redis.Client, got " ++
              clientTypeName (.other t)) := by
          simp only [initStorage, hsc, hc, hst]
          rw [if_pos hb1]
          rfl
        have hL : (rlNew (some o)).isOk = false := by
          rw [hnew, hinit]
          rfl
        exact iff_of_true hL (.inr (.inr (.inr ⟨.other t, rfl, .inl ⟨hb1, by simp⟩⟩)))
      · by_cases hb2 : o.storeType = "memcached" ∨ isMemcachedClientHandle (.other t) = true
        · have hinit : initStorage o3 = .error
              ("invalid client type: expected *memcache.Client, got " ++
                clientTypeName (.other t)) := by
            simp only [initStorage, hsc, hc, hst]
            rw [if_neg hb1, if_pos hb2]
            rfl
          have hL : (rlNew (some o)).isOk = false := by
            rw [hnew, hinit]
            rfl
          exact iff_of_true hL (.inr (.inr (.inr ⟨.other t, rfl, .inr ⟨hb1, hb2, by simp⟩⟩)))
        · have hinit : initStorage o3 = .ok .memory := by
            simp only [initStorage, hsc, hc, hst]
            rw [if_neg hb1, if_neg hb2]
          have hL : (rlNew (some o)).isOk = true := by
            rw [hnew, hinit]
            rfl
          refine iff_of_false (by simp [hL]) ?_
          rintro (h | h | h | ⟨c', hcc, hroute⟩)
          · exact hp h
          · exact hd h
          · rcases hs with h5 | h5 | h5 | h5 | h5 <;> simp_all
          · cases hcc
            rcases hroute with ⟨hr, _⟩ | ⟨_, hm, _⟩
            · exact hb1 hr
            · exact hb2 hm


theorem rlConsume_fixed {opts : Options} {now : Int} {s : MemStorage} {key : String}
    {pts : Int} (hstrat : opts.strategy = "fixed_window") (hp : ¬ pts < 0) :
    rlConsume opts now s key pts = .ok (consumeFixedWindow opts now s key pts) := by
  unfold rlConsume
  rw [if_neg hp, hstrat]
  rfl

theorem rlConsume_not_neg {opts : Options} {now : Int} {s : MemStorage} {key : String}
    {pts : Int} {p : Result × MemStorage}
    (h : rlConsume opts now s key pts = .ok p) : ¬ pts < 0 := by
  intro hneg
  unfold rlConsume at h
  rw [if_pos hneg] at h
  cases h

/-- C2: for every fixed-window `Consume(key, cost)` with current-window counter
`c`: if `c + cost ≤ points` the call is allowed, reports `consumed = c + cost`
and increments the window counter by exactly `cost`; otherwise it is denied,
reports `consumed = c` and leaves the store untouched. -/
theorem claim_C2 (opts : Options) (now : Int) (s : MemStorage) (key : String) (pts : Int)
    (r : Result) (s' : MemStorage)
    (hD : 0 < opts.duration) (hstrat : opts.strategy = "fixed_window")
    (hrun : rlConsume opts now s key pts = .ok (r, s')) :
    (memGet now s (windowKeyOf (buildKey opts key) opts now) + pts ≤ opts.points →
      r.allowed = true ∧
      r.consumedPoints = memGet now s (windowKeyOf (buildKey opts key) opts now) + pts ∧
      memGet now s' (windowKeyOf (buildKey opts key) opts now) =
        memGet now s (windowKeyOf (buildKey opts key) opts now) + pts) ∧
    (opts.points < memGet now s (windowKeyOf (buildKey opts key) opts now) + pts →
      r.allowed = false ∧
      r.consumedPoints = memGet now s (windowKeyOf (buildKey opts key) opts now) ∧
      s' = s) := by
  have hp : ¬ pts < 0 := rlConsume_not_neg hrun
  rw [rlConsume_fixed hstrat hp] at hrun
  have hp2 : consumeFixedWindow opts now s key pts = (r, s') := by
    injection hrun
  constructor
  · intro hadm
    have hfix : consumeFixedWindow opts now s key pts =
        ({ msBeforeNext := windowStartFixed opts now + durMs opts - now,
           remainingPoints :=
             if opts.points - (memGet now s (windowKeyOf (buildKey opts key) opts now) + pts) < 0
             then 0
             else opts.points - (memGet now s (windowKeyOf (buildKey opts key) opts now) + pts),
           consumedPoints := memGet now s (windowKeyOf (buildKey opts key) opts now) + pts,
           isFirstInDuration :=
             decide (memGet now s (windowKeyOf (buildKey opts key) opts now) = 0),
           totalHits := opts.points, allowed := true },
         (memIncrement now s (windowKeyOf (buildKey opts key) opts now) pts (durMs opts)).2) := by
      simp only [consumeFixedWindow]
      rw [if_pos hadm]
    rw [hfix] at hp2
    cases hp2
    refine ⟨rfl, rfl, ?_⟩
    exact memGet_increment_self now s _ pts (durMs opts) (le_of_lt (durMs_pos hD))
  · intro hgt
    have hadm : ¬ (memGet now s (windowKeyOf (buildKey opts key) opts now) + pts ≤ opts.points) := by
      omega
    have hfix : consumeFixedWindow opts now s key pts =
        ({ msBeforeNext := windowStartFixed opts now + durMs opts - now,
           remainingPoints :=
             if opts.points - memGet now s (windowKeyOf (buildKey opts key) opts now) < 0
             then 0
             else opts.points - memGet now s (windowKeyOf (buildKey opts key) opts now),
           consumedPoints := memGet now s (windowKeyOf (buildKey opts key) opts now),
           isFirstInDuration :=
             decide (memGet now s (windowKeyOf (buildKey opts key) opts now) = 0),
           totalHits := opts.points, allowed := false }, s) := by
      simp only [consumeFixedWindow]
      rw [if_neg hadm]
    rw [hfix] at hp2
    cases hp2
    exact ⟨rfl, rfl, rfl⟩

/-- Witness for C2 at a concrete input: fresh store, 5 points per 10 s, cost 1. -/
theorem claim_C2_witness :
    (consumeFixedWindow c1opts 0 emptyStore "k" 1).1.allowed = true ∧
    (consumeFixedWindow c1opts 0 emptyStore "k" 1).1.consumedPoints = 1 ∧
    memGet 0 (consumeFixedWindow c1opts 0 emptyStore "k" 1).2
      (windowKeyOf (buildKey c1opts "k") c1opts 0) = 1 := by
  have h := claim_C2 c1opts 0 emptyStore "k" 1
    (consumeFixedWindow c1opts 0 emptyStore "k" 1).1
    (consumeFixedWindow c1opts 0 emptyStore "k" 1).2
    (by decide) (by decide) (by rfl)
  have h2 := h.1 (by decide)
  have hm : memGet 0 emptyStore (windowKeyOf (buildKey c1opts "k") c1opts 0) = 0 := rfl
  rw [hm] at h2
  norm_num at h2
  exact h2


/-! Per-strategy bounds on the produced results (used by C3 and C9). -/

theorem tbState_wf {opts : Options} {now : Int} {s : MemStorage} (dataKey : String)
    (hP : 0 < opts.points) (hD : 0 < opts.duration) (hnow : 0 ≤ now)
    (hwf : WFStorage opts now s) :
    0 ≤ (tbState opts now s dataKey).tokens ∧ 0 ≤ (tbState opts now s dataKey).refillRate ∧
    (tbState opts now s dataKey).lastRefill ≤ now ∧ 0 ≤ (tbState opts now s dataKey).capacity := by
  simp only [tbState]
  split
  · unfold initTB
    have hPQ : (0 : ℚ) ≤ (opts.points : Int) := by exact_mod_cast le_of_lt hP
    have hDQ : (0 : ℚ) ≤ (opts.duration : Int) := by exact_mod_cast le_of_lt hD
    exact ⟨hPQ, div_nonneg hPQ hDQ, le_refl now, le_of_lt hP⟩
  · exact readTB_wf dataKey hwf hnow

theorem tbElapsed_nonneg {opts : Options} {now : Int} {s : MemStorage} (dataKey : String)
    (hP : 0 < opts.points) (hD : 0 < opts.duration) (hnow : 0 ≤ now)
    (hwf : WFStorage opts now s) : 0 ≤ tbElapsed opts now s dataKey := by
  obtain ⟨h1, h2, h3, h4⟩ := tbState_wf dataKey hP hD hnow hwf
  unfold tbElapsed
  apply div_nonneg _ (by norm_num)
  exact_mod_cast sub_nonneg.mpr h3

theorem tbRefilled_nonneg {opts : Options} {now : Int} {s : MemStorage} (dataKey : String)
    (hP : 0 < opts.points) (hD : 0 < opts.duration) (hnow : 0 ≤ now)
    (hwf : WFStorage opts now s) : 0 ≤ tbRefilled opts now s dataKey := by
  obtain ⟨h1, h2, h3, h4⟩ := tbState_wf dataKey hP hD hnow hwf
  have he := tbElapsed_nonneg dataKey hP hD hnow hwf
  unfold tbRefilled
  refine le_min ?_ ?_
  · exact_mod_cast h4
  · exact add_nonneg h1 (mul_nonneg he h2)

theorem consumeTokenBucket_bounds (opts : Options) (now : Int) (s : MemStorage)
    (key : String) (pts : Int)
    (hP : 0 < opts.points) (hD : 0 < opts.duration) (hnow : 0 ≤ now) (hpts : ¬ pts < 0)
    (hwf : WFStorage opts now s) :
    0 ≤ (consumeTokenBucket opts now s key pts).1.remainingPoints ∧
    0 ≤ (consumeTokenBucket opts now s key pts).1.consumedPoints ∧
    0 ≤ (consumeTokenBucket opts now s key pts).1.msBeforeNext := by
  obtain ⟨h1, h2, h3, h4⟩ := tbState_wf (buildKey opts key ++ ":tb") hP hD hnow hwf
  have htok := tbRefilled_nonneg (buildKey opts key ++ ":tb") hP hD hnow hwf
  simp only [consumeTokenBucket]
  by_cases hadm : (pts : ℚ) ≤ tbRefilled opts now s (buildKey opts key ++ ":tb")
  · rw [if_pos hadm]
    refine ⟨?_, ?_, ?_⟩
    · show 0 ≤ goInt64 (tbRefilled opts now s (buildKey opts key ++ ":tb") - (pts : ℚ))
      exact goInt64_nonneg (sub_nonneg.mpr hadm)
    · show 0 ≤ pts
      omega
    · show (0 : Int) ≤ 0
      exact le_refl 0
  · rw [if_neg hadm]
    refine ⟨?_, ?_, ?_⟩
    · show 0 ≤ goInt64 (tbRefilled opts now s (buildKey opts key ++ ":tb"))
      exact goInt64_nonneg htok
    · show (0 : Int) ≤ 0
      exact le_refl 0
    · show 0 ≤ goInt64 ((((pts : ℚ) - tbRefilled opts now s (buildKey opts key ++ ":tb")) /
        (tbState opts now s (buildKey opts key ++ ":tb")).refillRate) * 1000)
      have hlt : tbRefilled opts now s (buildKey opts key ++ ":tb") < (pts : ℚ) := not_le.mp hadm
      exact goInt64_nonneg
        (mul_nonneg (div_nonneg (sub_nonneg.mpr (le_of_lt hlt)) h2) (by norm_num))

theorem lbState_wf {opts : Options} {now : Int} {s : MemStorage} (dataKey : String)
    (hP : 0 < opts.points) (hD : 0 < opts.duration) (hwf : WFStorage opts now s) :
    (∀ r ∈ (lbState opts now s dataKey).queue, 0 ≤ r.points) ∧
    sumPoints (lbState opts now s dataKey).queue ≤ opts.points ∧
    0 ≤ (lbState opts now s dataKey).drainRate := by
  simp only [lbState]
  split
  · unfold initLB
    have hPQ : (0 : ℚ) ≤ (opts.points : Int) := by exact_mod_cast le_of_lt hP
    have hDQ : (0 : ℚ) ≤ (opts.duration : Int) := by exact_mod_cast le_of_lt hD
    refine ⟨by simp, ?_, div_nonneg hPQ hDQ⟩
    show sumPoints [] ≤ opts.points
    simp [sumPoints]
    omega
  · exact readLB_wf dataKey hwf (le_of_lt hP)

theorem lbQueue_bounds {opts : Options} {now : Int} {s : MemStorage} (dataKey : String)
    (hP : 0 < opts.points) (hD : 0 < opts.duration) (hwf : WFStorage opts now s) :
    (∀ r ∈ lbQueue opts now s dataKey, 0 ≤ r.points) ∧
    sumPoints (lbQueue opts now s dataKey) ≤ opts.points := by
  obtain ⟨hq, hsum, hr⟩ := lbState_wf dataKey hP hD hwf
  unfold lbQueue
  exact ⟨drainRequests_points_nonneg hq, le_trans (drainRequests_sum_le hq) hsum⟩

theorem lbCurrent_bounds {opts : Options} {now : Int} {s : MemStorage} (dataKey : String)
    (hP : 0 < opts.points) (hD : 0 < opts.duration) (hwf : WFStorage opts now s) :
    0 ≤ lbCurrent opts now s dataKey ∧ lbCurrent opts now s dataKey ≤ opts.points := by
  obtain ⟨hq, hsum⟩ := lbQueue_bounds dataKey hP hD hwf
  exact ⟨sumPoints_nonneg hq, hsum⟩

theorem consumeLeakyBucket_bounds (opts : Options) (now : Int) (s : MemStorage)
    (key : String) (pts : Int)
    (hP : 0 < opts.points) (hD : 0 < opts.duration) (hpts : ¬ pts < 0)
    (hwf : WFStorage opts now s) :
    0 ≤ (consumeLeakyBucket opts now s key pts).1.remainingPoints ∧
    0 ≤ (consumeLeakyBucket opts now s key pts).1.consumedPoints ∧
    0 ≤ (consumeLeakyBucket opts now s key pts).1.msBeforeNext := by
  obtain ⟨hc0, hcP⟩ := lbCurrent_bounds (buildKey opts key ++ ":lb") hP hD hwf
  obtain ⟨hq, hsum, hr⟩ := lbState_wf (buildKey opts key ++ ":lb") hP hD hwf
  simp only [consumeLeakyBucket]
  by_cases hadm : lbCurrent opts now s (buildKey opts key ++ ":lb") + pts ≤ opts.points
  · rw [if_pos hadm]
    refine ⟨?_, ?_, ?_⟩
    · show 0 ≤ opts.points - (lbCurrent opts now s (buildKey opts key ++ ":lb") + pts)
      omega
    · show 0 ≤ lbCurrent opts now s (buildKey opts key ++ ":lb") + pts
      omega
    · show (0 : Int) ≤ 0
      exact le_refl 0
  · rw [if_neg hadm]
    refine ⟨?_, ?_, ?_⟩
    · show 0 ≤ opts.points - lbCurrent opts now s (buildKey opts key ++ ":lb")
      omega
    · show 0 ≤ lbCurrent opts now s (buildKey opts key ++ ":lb")
      exact hc0
    · show 0 ≤ goInt64
        ((((lbCurrent opts now s (buildKey opts key ++ ":lb") + pts - opts.points : Int) : ℚ) /
          (lbState opts now s (buildKey opts key ++ ":lb")).drainRate) * 1000)
      have hover : (0 : ℚ) ≤
          ((lbCurrent opts now s (buildKey opts key ++ ":lb") + pts - opts.points : Int) : ℚ) := by
        have : (0 : Int) ≤ lbCurrent opts now s (buildKey opts key ++ ":lb") + pts - opts.points := by
          omega
        exact_mod_cast this
      exact goInt64_nonneg (mul_nonneg (div_nonneg hover hr) (by norm_num))

theorem swValid_le {opts : Options} {now : Int} {s : MemStorage} (dataKey : String)
    (hP : 0 ≤ opts.points) (hwf : WFStorage opts now s) :
    ((swValid opts now s dataKey).length : Int) ≤ opts.points := by
  have h2 := readSW_wf dataKey hwf hP
  unfold swValid removeOldRequests swStored
  have h1 := List.length_filter_le (fun req => decide (now - durMs opts < req))
    (readSW now s dataKey).requests
  have h3 : (((readSW now s dataKey).requests.filter
      (fun req => decide (now - durMs opts < req))).length : Int) ≤
      ((readSW now s dataKey).requests.length : Int) := by exact_mod_cast h1
  omega

theorem consumeSlidingWindow_bounds (opts : Options) (now : Int) (s : MemStorage)
    (key : String) (pts : Int)
    (hP : 0 < opts.points) (hpts : ¬ pts < 0) (hwf : WFStorage opts now s) :
    0 ≤ (consumeSlidingWindow opts now s key pts).1.remainingPoints ∧
    0 ≤ (consumeSlidingWindow opts now s key pts).1.consumedPoints ∧
    0 ≤ (consumeSlidingWindow opts now s key pts).1.msBeforeNext := by
  have hlen := swValid_le (buildKey opts key ++ ":sw") (le_of_lt hP) hwf
  simp only [consumeSlidingWindow]
  by_cases hadm : ((swValid opts now s (buildKey opts key ++ ":sw")).length : Int) + pts ≤
      opts.points
  · rw [if_pos hadm]
    have hlen2 : (((swValid opts now s (buildKey opts key ++ ":sw")) ++
        List.replicate pts.toNat now).length : Int) =
        ((swValid opts now s (buildKey opts key ++ ":sw")).length : Int) + pts := by
      rw [List.length_append, List.length_replicate]
      push_cast
      rw [Int.toNat_of_nonneg (by omega)]
    refine ⟨?_, ?_, ?_⟩
    · show 0 ≤ opts.points - (((swValid opts now s (buildKey opts key ++ ":sw")) ++
        List.replicate pts.toNat now).length : Int)
      omega
    · show 0 ≤ (((swValid opts now s (buildKey opts key ++ ":sw")) ++
        List.replicate pts.toNat now).length : Int)
      omega
    · show (0 : Int) ≤ 0
      exact le_refl 0
  · rw [if_neg hadm]
    cases hv : swValid opts now s (buildKey opts key ++ ":sw") with
    | nil =>
      refine ⟨?_, ?_, ?_⟩
      · show 0 ≤ opts.points
        omega
      · show (0 : Int) ≤ 0
        exact le_refl 0
      · show (0 : Int) ≤ 0
        exact le_refl 0
    | cons oldest rest =>
      rw [hv] at hlen
      refine ⟨?_, ?_, ?_⟩
      · show 0 ≤ opts.points - (((oldest :: rest).length : Int))
        omega
      · show 0 ≤ (((oldest :: rest).length : Int))
        positivity
      · show 0 ≤ (if oldest + durMs opts - now < 0 then 0 else oldest + durMs opts - now)
        split <;> omega

theorem consumeFixedWindow_bounds (opts : Options) (now : Int) (s : MemStorage)
    (key : String) (pts : Int)
    (hD : 0 < opts.duration) (hpts : ¬ pts < 0) (hwf : WFStorage opts now s) :
    0 ≤ (consumeFixedWindow opts now s key pts).1.remainingPoints ∧
    0 ≤ (consumeFixedWindow opts now s key pts).1.consumedPoints ∧
    0 < (consumeFixedWindow opts now s key pts).1.msBeforeNext := by
  have hc := @memGet_nonneg opts now s
    (windowKeyOf (buildKey opts key) opts now) hwf
  have hms := @lt_windowStartFixed_add opts now hD
  simp only [consumeFixedWindow]
  by_cases hadm : memGet now s (windowKeyOf (buildKey opts key) opts now) + pts ≤ opts.points
  · rw [if_pos hadm]
    refine ⟨?_, ?_, ?_⟩
    · show 0 ≤ (if opts.points - (memGet now s (windowKeyOf (buildKey opts key) opts now) + pts) < 0
        then 0 else opts.points - (memGet now s (windowKeyOf (buildKey opts key) opts now) + pts))
      split <;> omega
    · show 0 ≤ memGet now s (windowKeyOf (buildKey opts key) opts now) + pts
      omega
    · show 0 < windowStartFixed opts now + durMs opts - now
      omega
  · rw [if_neg hadm]
    refine ⟨?_, ?_, ?_⟩
    · show 0 ≤ (if opts.points - memGet now s (windowKeyOf (buildKey opts key) opts now) < 0
        then 0 else opts.points - memGet now s (windowKeyOf (buildKey opts key) opts now))
      split <;> omega
    · show 0 ≤ memGet now s (windowKeyOf (buildKey opts key) opts now)
      exact hc
    · show 0 < windowStartFixed opts now + durMs opts - now
      omega


/-! Shape lemmas for the `Get` readers: first and second components. -/

theorem getTokenBucket_fst (opts : Options) (now : Int) (s : MemStorage) (sk : String) :
    (getTokenBucket opts now s sk).1 =
      if (readTB now s (sk ++ ":tb")).lastRefill = 0 then none
      else some
        { msBeforeNext := 0, remainingPoints := goInt64 (gtbCurrent now s (sk ++ ":tb")),
          consumedPoints :=
            (readTB now s (sk ++ ":tb")).capacity - goInt64 (gtbCurrent now s (sk ++ ":tb")),
          isFirstInDuration := false, totalHits := opts.points,
          allowed := decide (1 ≤ goInt64 (gtbCurrent now s (sk ++ ":tb"))) } := by
  by_cases hc : (readTB now s (sk ++ ":tb")).lastRefill = 0 <;>
    simp [getTokenBucket, readTBOp, hc]

theorem getTokenBucket_snd (opts : Options) (now : Int) (s : MemStorage) (sk : String) :
    (getTokenBucket opts now s sk).2 = s := by
  by_cases hc : (readTB now s (sk ++ ":tb")).lastRefill = 0 <;>
    simp [getTokenBucket, readTBOp, hc]

theorem getLeakyBucket_fst (opts : Options) (now : Int) (s : MemStorage) (sk : String) :
    (getLeakyBucket opts now s sk).1 =
      if (readLB now s (sk ++ ":lb")).lastDrain = 0 then none
      else some
        { msBeforeNext := 0,
          remainingPoints := opts.points - sumPoints (glbQueue now s (sk ++ ":lb")),
          consumedPoints := sumPoints (glbQueue now s (sk ++ ":lb")),
          isFirstInDuration := false, totalHits := opts.points,
          allowed := decide (sumPoints (glbQueue now s (sk ++ ":lb")) < opts.points) } := by
  by_cases hc : (readLB now s (sk ++ ":lb")).lastDrain = 0 <;>
    simp [getLeakyBucket, readLBOp, hc]

theorem getLeakyBucket_snd (opts : Options) (now : Int) (s : MemStorage) (sk : String) :
    (getLeakyBucket opts now s sk).2 = s := by
  by_cases hc : (readLB now s (sk ++ ":lb")).lastDrain = 0 <;>
    simp [getLeakyBucket, readLBOp, hc]

theorem getSlidingWindow_fst (opts : Options) (now : Int) (s : MemStorage) (sk : String) :
    (getSlidingWindow opts now s sk).1 =
      if (readSW now s (sk ++ ":sw")).requests.isEmpty then none
      else some
        { msBeforeNext := 0,
          remainingPoints := opts.points - ((swValid opts now s (sk ++ ":sw")).length : Int),
          consumedPoints := ((swValid opts now s (sk ++ ":sw")).length : Int),
          isFirstInDuration := false, totalHits := opts.points,
          allowed := decide (((swValid opts now s (sk ++ ":sw")).length : Int) < opts.points) } := by
  by_cases hc : (readSW now s (sk ++ ":sw")).requests.isEmpty <;>
    simp [getSlidingWindow, readSWOp, hc]

theorem getSlidingWindow_snd (opts : Options) (now : Int) (s : MemStorage) (sk : String) :
    (getSlidingWindow opts now s sk).2 = s := by
  by_cases hc : (readSW now s (sk ++ ":sw")).requests.isEmpty <;>
    simp [getSlidingWindow, readSWOp, hc]

theorem getFixedWindow_fst (opts : Options) (now : Int) (s : MemStorage) (sk : String) :
    (getFixedWindow opts now s sk).1 =
      if memGet now s (windowKeyOf sk opts now) = 0 then none
      else some
        { msBeforeNext := windowStartFixed opts now + durMs opts - now,
          remainingPoints :=
            if opts.points - memGet now s (windowKeyOf sk opts now) < 0 then 0
            else opts.points - memGet now s (windowKeyOf sk opts now),
          consumedPoints := memGet now s (windowKeyOf sk opts now),
          isFirstInDuration := false, totalHits := opts.points,
          allowed := decide (memGet now s (windowKeyOf sk opts now) ≤ opts.points) } := by
  by_cases hc : memGet now s (windowKeyOf sk opts now) = 0 <;>
    simp [getFixedWindow, memGetOp, hc]

theorem getFixedWindow_snd (opts : Options) (now : Int) (s : MemStorage) (sk : String) :
    (getFixedWindow opts now s sk).2 = s := by
  by_cases hc : memGet now s (windowKeyOf sk opts now) = 0 <;>
    simp [getFixedWindow, memGetOp, hc]

theorem rlGet_snd (opts : Options) (now : Int) (s : MemStorage) (key : String) :
    (rlGet opts now s key).2 = s := by
  unfold rlGet
  split_ifs <;>
    first
      | exact getTokenBucket_snd _ _ _ _
      | exact getLeakyBucket_snd _ _ _ _
      | exact getSlidingWindow_snd _ _ _ _
      | exact getFixedWindow_snd _ _ _ _

/-! Bounds for the `Get` readers. -/

theorem gtbCurrent_bounds {opts : Options} {now : Int} {s : MemStorage} (sk : String)
    (hnow : 0 ≤ now) (hwf : WFStorage opts now s) :
    0 ≤ gtbCurrent now s (sk ++ ":tb") ∧
    gtbCurrent now s (sk ++ ":tb") ≤ ((readTB now s (sk ++ ":tb")).capacity : ℚ) := by
  obtain ⟨h1, h2, h3, h4⟩ := readTB_wf (sk ++ ":tb") hwf hnow
  simp only [gtbCurrent]
  constructor
  · split
    · exact_mod_cast h4
    · exact add_nonneg h1 (mul_nonneg
        (div_nonneg (by exact_mod_cast sub_nonneg.mpr h3) (by norm_num)) h2)
  · split
    · exact le_refl _
    · next hcap => exact le_of_not_lt hcap

theorem getTokenBucket_bounds {opts : Options} {now : Int} {s : MemStorage} (sk : String)
    {r : Result} (hnow : 0 ≤ now) (hwf : WFStorage opts now s)
    (h : (getTokenBucket opts now s sk).1 = some r) :
    0 ≤ r.remainingPoints ∧ 0 ≤ r.consumedPoints ∧ 0 ≤ r.msBeforeNext := by
  obtain ⟨hc0, hcap⟩ := gtbCurrent_bounds sk hnow hwf
  have hle := goInt64_le_of_le hcap
  rw [getTokenBucket_fst] at h
  split at h
  · cases h
  · injection h with h5
    rw [← h5]
    refine ⟨goInt64_nonneg hc0, ?_, le_refl 0⟩
    show 0 ≤ (readTB now s (sk ++ ":tb")).capacity - goInt64 (gtbCurrent now s (sk ++ ":tb"))
    omega

theorem getLeakyBucket_bounds {opts : Options} {now : Int} {s : MemStorage} (sk : String)
    {r : Result} (hP : 0 < opts.points) (hwf : WFStorage opts now s)
    (h : (getLeakyBucket opts now s sk).1 = some r) :
    0 ≤ r.remainingPoints ∧ 0 ≤ r.consumedPoints ∧ 0 ≤ r.msBeforeNext := by
  obtain ⟨hq, hsum, hr0⟩ := readLB_wf (sk ++ ":lb") hwf (le_of_lt hP)
  have hqb : (∀ x ∈ glbQueue now s (sk ++ ":lb"), 0 ≤ x.points) ∧
      sumPoints (glbQueue now s (sk ++ ":lb")) ≤ opts.points := by
    unfold glbQueue
    exact ⟨drainRequests_points_nonneg hq, le_trans (drainRequests_sum_le hq) hsum⟩
  have hq0 := sumPoints_nonneg hqb.1
  have hqP := hqb.2
  rw [getLeakyBucket_fst] at h
  split at h
  · cases h
  · injection h with h5
    rw [← h5]
    refine ⟨?_, hq0, le_refl 0⟩
    show 0 ≤ opts.points - sumPoints (glbQueue now s (sk ++ ":lb"))
    omega

theorem getSlidingWindow_bounds {opts : Options} {now : Int} {s : MemStorage} (sk : String)
    {r : Result} (hP : 0 < opts.points) (hwf : WFStorage opts now s)
    (h : (getSlidingWindow opts now s sk).1 = some r) :
    0 ≤ r.remainingPoints ∧ 0 ≤ r.consumedPoints ∧ 0 ≤ r.msBeforeNext := by
  have hlen := swValid_le (sk ++ ":sw") (le_of_lt hP) hwf
  rw [getSlidingWindow_fst] at h
  split at h
  · cases h
  · injection h with h5
    rw [← h5]
    refine ⟨?_, ?_, le_refl 0⟩
    · show 0 ≤ opts.points - ((swValid opts now s (sk ++ ":sw")).length : Int)
      omega
    · show 0 ≤ ((swValid opts now s (sk ++ ":sw")).length : Int)
      positivity

theorem getFixedWindow_bounds {opts : Options} {now : Int} {s : MemStorage} (sk : String)
    {r : Result} (hD : 0 < opts.duration) (hwf : WFStorage opts now s)
    (h : (getFixedWindow opts now s sk).1 = some r) :
    0 ≤ r.remainingPoints ∧ 0 ≤ r.consumedPoints ∧ 0 ≤ r.msBeforeNext := by
  have hc := @memGet_nonneg opts now s (windowKeyOf sk opts now) hwf
  have hms := @lt_windowStartFixed_add opts now hD
  rw [getFixedWindow_fst] at h
  split at h
  · cases h
  · injection h with h5
    rw [← h5]
    refine ⟨?_, hc, ?_⟩
    · show 0 ≤ (if opts.points - memGet now s (windowKeyOf sk opts now) < 0 then 0
        else opts.points - memGet now s (windowKeyOf sk opts now))
      split <;> omega
    · show 0 ≤ windowStartFixed opts now + durMs opts - now
      omega

/-- C9: every Result returned by Consume or Get, under any of the four
strategies (including the unknown-strategy fallback), carries nonnegative
`remaining_points`, `consumed_points` and `ms_before_next`, given a store whose
persisted records were produced by the engines themselves (`WFStorage`). -/
theorem claim_C9 (opts : Options) (now : Int) (s : MemStorage) (key : String) (pts : Int)
    (hP : 0 < opts.points) (hD : 0 < opts.duration) (hnow : 0 ≤ now)
    (hwf : WFStorage opts now s) :
    (∀ r s', rlConsume opts now s key pts = .ok (r, s') →
      0 ≤ r.remainingPoints ∧ 0 ≤ r.consumedPoints ∧ 0 ≤ r.msBeforeNext) ∧
    (∀ r, (rlGet opts now s key).1 = some r →
      0 ≤ r.remainingPoints ∧ 0 ≤ r.consumedPoints ∧ 0 ≤ r.msBeforeNext) := by
  constructor
  · intro r s' h
    have hpts := rlConsume_not_neg h
    unfold rlConsume at h
    rw [if_neg hpts] at h
    injection h with hok
    split_ifs at hok
    · have hr : r = (consumeTokenBucket opts now s key pts).1 := by rw [hok]
      rw [hr]
      exact consumeTokenBucket_bounds opts now s key pts hP hD hnow hpts hwf
    · have hr : r = (consumeLeakyBucket opts now s key pts).1 := by rw [hok]
      rw [hr]
      exact consumeLeakyBucket_bounds opts now s key pts hP hD hpts hwf
    · have hr : r = (consumeSlidingWindow opts now s key pts).1 := by rw [hok]
      rw [hr]
      exact consumeSlidingWindow_bounds opts now s key pts hP hpts hwf
    · have hr : r = (consumeFixedWindow opts now s key pts).1 := by rw [hok]
      rw [hr]
      obtain ⟨b1, b2, b3⟩ := consumeFixedWindow_bounds opts now s key pts hD hpts hwf
      exact ⟨b1, b2, le_of_lt b3⟩
    · have hr : r = (consumeTokenBucket opts now s key pts).1 := by rw [hok]
      rw [hr]
      exact consumeTokenBucket_bounds opts now s key pts hP hD hnow hpts hwf
  · intro r h
    unfold rlGet at h
    split_ifs at h
    · exact getTokenBucket_bounds _ hnow hwf h
    · exact getLeakyBucket_bounds _ hP hwf h
    · exact getSlidingWindow_bounds _ hP hwf h
    · exact getFixedWindow_bounds _ hD hwf h
    · exact getTokenBucket_bounds _ hnow hwf h

/-- Witness for C9 at a concrete input: fixed window, 5 points per 10 s, fresh
store, one consumed point. -/
theorem claim_C9_witness :
    0 ≤ (consumeFixedWindow c1opts 0 emptyStore "k" 1).1.remainingPoints ∧
    0 ≤ (consumeFixedWindow c1opts 0 emptyStore "k" 1).1.consumedPoints ∧
    0 ≤ (consumeFixedWindow c1opts 0 emptyStore "k" 1).1.msBeforeNext :=
  (claim_C9 c1opts 0 emptyStore "k" 1 (by decide) (by decide) (by decide)
      (by constructor <;> (intro p hp; cases hp))).1
    (consumeFixedWindow c1opts 0 emptyStore "k" 1).1
    (consumeFixedWindow c1opts 0 emptyStore "k" 1).2 (by rfl)


theorem rlConsume_sliding {opts : Options} {now : Int} {s : MemStorage} {key : String}
    {pts : Int} (hstrat : opts.strategy = "sliding_window") (hp : ¬ pts < 0) :
    rlConsume opts now s key pts = .ok (consumeSlidingWindow opts now s key pts) := by
  unfold rlConsume
  rw [if_neg hp, hstrat]
  rfl

/-- C3 (amended): whenever a Consume under any strategy is denied,
`ms_before_next ≥ 0`; strict positivity fails: a sliding-window Consume whose
evicted sequence is empty and whose cost alone exceeds `points` is denied with
`ms_before_next = 0`. -/
theorem claim_C3_amended (opts : Options) (now : Int) (s : MemStorage) (key : String)
    (pts : Int) (hP : 0 < opts.points) (hD : 0 < opts.duration) (hnow : 0 ≤ now)
    (hwf : WFStorage opts now s) :
    (∀ r s', rlConsume opts now s key pts = .ok (r, s') → r.allowed = false →
      0 ≤ r.msBeforeNext) ∧
    (opts.strategy = "sliding_window" →
      swValid opts now s (buildKey opts key ++ ":sw") = [] →
      opts.points < pts →
      ∀ r s', rlConsume opts now s key pts = .ok (r, s') →
        r.allowed = false ∧ r.msBeforeNext = 0) := by
  constructor
  · intro r s' h _
    have hpts := rlConsume_not_neg h
    unfold rlConsume at h
    rw [if_neg hpts] at h
    injection h with hok
    split_ifs at hok
    · have hr : r = (consumeTokenBucket opts now s key pts).1 := by rw [hok]
      rw [hr]
      exact (consumeTokenBucket_bounds opts now s key pts hP hD hnow hpts hwf).2.2
    · have hr : r = (consumeLeakyBucket opts now s key pts).1 := by rw [hok]
      rw [hr]
      exact (consumeLeakyBucket_bounds opts now s key pts hP hD hpts hwf).2.2
    · have hr : r = (consumeSlidingWindow opts now s key pts).1 := by rw [hok]
      rw [hr]
      exact (consumeSlidingWindow_bounds opts now s key pts hP hpts hwf).2.2
    · have hr : r = (consumeFixedWindow opts now s key pts).1 := by rw [hok]
      rw [hr]
      exact le_of_lt (consumeFixedWindow_bounds opts now s key pts hD hpts hwf).2.2
    · have hr : r = (consumeTokenBucket opts now s key pts).1 := by rw [hok]
      rw [hr]
      exact (consumeTokenBucket_bounds opts now s key pts hP hD hnow hpts hwf).2.2
  · intro hstrat hempty hgt r s' h
    have hpts := rlConsume_not_neg h
    rw [rlConsume_sliding hstrat hpts] at h
    injection h with hok
    have hsw : consumeSlidingWindow opts now s key pts =
        ({ msBeforeNext := 0, remainingPoints := opts.points, consumedPoints := 0,
           isFirstInDuration := true, totalHits := opts.points, allowed := false }, s) := by
      simp only [consumeSlidingWindow, hempty]
      rw [if_neg (by simp; omega)]
    rw [hsw] at hok
    injection hok with h1 h2
    rw [← h1]
    exact ⟨rfl, rfl⟩

/-- Witness for the amended C3 at a concrete input: sliding window, 5 points
per second, empty store, cost 6. -/
theorem claim_C3_amended_witness :
    (consumeSlidingWindow c3opts 1000 emptyStore "k" 6).1.allowed = false ∧
    (consumeSlidingWindow c3opts 1000 emptyStore "k" 6).1.msBeforeNext = 0 :=
  (claim_C3_amended c3opts 1000 emptyStore "k" 6 (by decide) (by decide) (by decide)
      (by constructor <;> (intro p hp; cases hp))).2 (by decide) (by decide) (by decide)
    (consumeSlidingWindow c3opts 1000 emptyStore "k" 6).1
    (consumeSlidingWindow c3opts 1000 emptyStore "k" 6).2 (by rfl)


theorem rlConsume_token {opts : Options} {now : Int} {s : MemStorage} {key : String}
    {pts : Int} (hstrat : opts.strategy = "token_bucket") (hp : ¬ pts < 0) :
    rlConsume opts now s key pts = .ok (consumeTokenBucket opts now s key pts) := by
  unfold rlConsume
  rw [if_neg hp, hstrat]
  rfl

theorem c4_wf : WFStorage c4opts 1000 c4store := by
  constructor
  · intro p hp
    rw [List.mem_singleton.mp hp]
    show WFBlob c4opts 1000 (.tb c4data)
    unfold WFBlob
    norm_num [c4data]
  · intro p hp
    cases hp

theorem c4_state_eval : tbState c4opts 1000 c4store "rl:k:tb" = c4data := by
  have hread : readTB 1000 c4store "rl:k:tb" = c4data := by decide
  unfold tbState
  rw [hread]
  rw [if_neg (by norm_num [c4data])]

theorem c4_elapsed_eval : tbElapsed c4opts 1000 c4store "rl:k:tb" = 0 := by
  unfold tbElapsed
  rw [c4_state_eval]
  norm_num [c4data]

theorem c4_refill_eval : tbRefilled c4opts 1000 c4store "rl:k:tb" = 0 := by
  unfold tbRefilled
  rw [c4_state_eval, c4_elapsed_eval]
  norm_num [c4data]

/-- C4 counterexample: token bucket with 3 points per second, an empty bucket
stamped at the same instant, cost 1: the code reports
`ms_before_next = int64(1000/3) = 333`, while the claimed ceiling is 334. -/
theorem claim_C4_cex :
    (consumeTokenBucket c4opts 1000 c4store "k" 1).1.msBeforeNext = 333 ∧
    ⌈(((1 : ℚ) - 0) / 3) * 1000⌉ = 334 := by
  constructor
  · have hkey : buildKey c4opts "k" ++ ":tb" = "rl:k:tb" := rfl
    simp only [consumeTokenBucket, hkey, c4_state_eval, c4_refill_eval]
    rw [if_neg (by norm_num)]
    show goInt64 ((((1 : Int) : ℚ) - 0) / c4data.refillRate * 1000) = 333
    rw [goInt64_eq_floor (by norm_num [c4data])]
    rw [show c4data.refillRate = 3 from rfl]
    rw [Int.floor_eq_iff]
    norm_num
  · rw [Int.ceil_eq_iff]
    norm_num

/-- C4 (amended): for every token-bucket `Consume` that is denied,
`ms_before_next` equals the floor (truncation toward zero, not the ceiling) of
`(cost − tokens) / refill_rate · 1000` computed on the refilled bucket,
`consumed_points = 0`, and the refilled state is not written back
(the store is returned unchanged). -/
theorem claim_C4_amended (opts : Options) (now : Int) (s : MemStorage) (key : String)
    (pts : Int) (r : Result) (s' : MemStorage)
    (hP : 0 < opts.points) (hD : 0 < opts.duration) (hnow : 0 ≤ now)
    (hstrat : opts.strategy = "token_bucket") (hwf : WFStorage opts now s)
    (hrun : rlConsume opts now s key pts = .ok (r, s'))
    (hden : r.allowed = false) :
    r.msBeforeNext =
      ⌊(((pts : ℚ) - tbRefilled opts now s (buildKey opts key ++ ":tb")) /
        (tbState opts now s (buildKey opts key ++ ":tb")).refillRate) * 1000⌋ ∧
    r.consumedPoints = 0 ∧ s' = s := by
  obtain ⟨h1, h2, h3, h4⟩ := tbState_wf (buildKey opts key ++ ":tb") hP hD hnow hwf
  have hpts := rlConsume_not_neg hrun
  rw [rlConsume_token hstrat hpts] at hrun
  injection hrun with hok
  by_cases hadm : (pts : ℚ) ≤ tbRefilled opts now s (buildKey opts key ++ ":tb")
  · exfalso
    have hshape : (consumeTokenBucket opts now s key pts).1.allowed = true := by
      simp only [consumeTokenBucket]
      rw [if_pos hadm]
    have hr : r = (consumeTokenBucket opts now s key pts).1 := by rw [hok]
    rw [hr, hshape] at hden
    cases hden
  · have hshape : consumeTokenBucket opts now s key pts =
        ({ msBeforeNext := goInt64
             ((((pts : ℚ) - tbRefilled opts now s (buildKey opts key ++ ":tb")) /
               (tbState opts now s (buildKey opts key ++ ":tb")).refillRate) * 1000),
           remainingPoints := goInt64 (tbRefilled opts now s (buildKey opts key ++ ":tb")),
           consumedPoints := 0, isFirstInDuration := false, totalHits := opts.points,
           allowed := false }, s) := by
      simp only [consumeTokenBucket]
      rw [if_neg hadm]
    rw [hshape] at hok
    injection hok with hr hs
    rw [← hr, ← hs]
    refine ⟨?_, rfl, rfl⟩
    show goInt64 ((((pts : ℚ) - tbRefilled opts now s (buildKey opts key ++ ":tb")) /
        (tbState opts now s (buildKey opts key ++ ":tb")).refillRate) * 1000) = _
    refine goInt64_eq_floor ?_
    have hlt := not_le.mp hadm
    exact mul_nonneg (div_nonneg (sub_nonneg.mpr (le_of_lt hlt)) h2) (by norm_num)


/-- Witness for the amended C4 at the concrete denial input. -/
theorem claim_C4_amended_witness :
    (consumeTokenBucket c4opts 1000 c4store "k" 1).1.msBeforeNext =
      ⌊(((1 : Int) : ℚ) - tbRefilled c4opts 1000 c4store (buildKey c4opts "k" ++ ":tb")) /
        (tbState c4opts 1000 c4store (buildKey c4opts "k" ++ ":tb")).refillRate * 1000⌋ ∧
    (consumeTokenBucket c4opts 1000 c4store "k" 1).1.consumedPoints = 0 ∧
    (consumeTokenBucket c4opts 1000 c4store "k" 1).2 = c4store := by
  have hkey : buildKey c4opts "k" ++ ":tb" = "rl:k:tb" := rfl
  have hden : (consumeTokenBucket c4opts 1000 c4store "k" 1).1.allowed = false := by
    simp only [consumeTokenBucket, hkey, c4_refill_eval]
    rw [if_neg (by norm_num)]
  exact claim_C4_amended c4opts 1000 c4store "k" 1
    (consumeTokenBucket c4opts 1000 c4store "k" 1).1
    (consumeTokenBucket c4opts 1000 c4store "k" 1).2
    (by decide) (by decide) (by decide) (by decide) c4_wf (by rfl) hden


/-! C8: `Consume(key, 0)` on the token bucket. -/

theorem c8_state_eval : tbState c8opts 2000 c8store "rl:k:tb" = c8data := by
  have hread : readTB 2000 c8store "rl:k:tb" = c8data := by decide
  unfold tbState
  rw [hread]
  rw [if_neg (by norm_num [c8data])]

theorem c8_elapsed_eval : tbElapsed c8opts 2000 c8store "rl:k:tb" = 1 := by
  unfold tbElapsed
  rw [c8_state_eval]
  norm_num [c8data]

theorem c8_refill_eval : tbRefilled c8opts 2000 c8store "rl:k:tb" = 5 := by
  unfold tbRefilled
  rw [c8_state_eval, c8_elapsed_eval]
  norm_num [c8data, min_def]

/-- C8 counterexample: a full token bucket stamped at t = 1000 ms; at
t = 2000 ms, `Consume(key, 0)` is allowed but rewrites the persisted record
(its `last_refill` becomes 2000), so the stored bucket state is not left
unchanged. -/
theorem claim_C8_cex :
    (consumeTokenBucket c8opts 2000 c8store "k" 0).1.allowed = true ∧
    alGet (consumeTokenBucket c8opts 2000 c8store "k" 0).2.jsonData "rl:k:tb" ≠
      alGet c8store.jsonData "rl:k:tb" := by
  have hkey : buildKey c8opts "k" ++ ":tb" = "rl:k:tb" := rfl
  have hadm : ((0 : Int) : ℚ) ≤ tbRefilled c8opts 2000 c8store "rl:k:tb" := by
    rw [c8_refill_eval]
    norm_num
  constructor
  · simp only [consumeTokenBucket, hkey]
    rw [if_pos hadm]
  · simp only [consumeTokenBucket, hkey]
    rw [if_pos hadm]
    show alGet (memSetJSON 2000 c8store "rl:k:tb" _ _).jsonData "rl:k:tb" ≠ _
    unfold memSetJSON
    rw [alGet_set_self]
    have hold : alGet c8store.jsonData "rl:k:tb" = some (.tb c8data) := by decide
    rw [hold]
    intro hcontra
    injection hcontra with h0
    injection h0 with h1
    have h2 := congrArg TokenBucketData.lastRefill h1
    norm_num [c8data] at h2

/-- C8 (amended): for every key, a token-bucket `Consume(key, 0)` returns
`allowed = true`, but it does not leave the persisted bucket state unchanged:
it writes back a record whose `last_refill` is `now` and whose token level is
the refilled level `min(capacity, tokens + elapsed · refill_rate)`. -/
theorem claim_C8_amended (opts : Options) (now : Int) (s : MemStorage) (key : String)
    (r : Result) (s' : MemStorage)
    (hP : 0 < opts.points) (hD : 0 < opts.duration) (hnow : 0 ≤ now)
    (hstrat : opts.strategy = "token_bucket") (hwf : WFStorage opts now s)
    (hrun : rlConsume opts now s key 0 = .ok (r, s')) :
    r.allowed = true ∧
    ∃ d, alGet s'.jsonData (buildKey opts key ++ ":tb") = some (Blob.tb d) ∧
      d.lastRefill = now ∧
      d.tokens = tbRefilled opts now s (buildKey opts key ++ ":tb") := by
  have hpts : ¬ (0 : Int) < 0 := by omega
  rw [rlConsume_token hstrat hpts] at hrun
  injection hrun with hok
  have hadm : ((0 : Int) : ℚ) ≤ tbRefilled opts now s (buildKey opts key ++ ":tb") := by
    have := tbRefilled_nonneg (buildKey opts key ++ ":tb") hP hD hnow hwf
    simpa using this
  have hshape : consumeTokenBucket opts now s key 0 =
      ({ msBeforeNext := 0,
         remainingPoints :=
           goInt64 (tbRefilled opts now s (buildKey opts key ++ ":tb") - ((0 : Int) : ℚ)),
         consumedPoints := 0,
         isFirstInDuration :=
           decide (durSec opts < tbElapsed opts now s (buildKey opts key ++ ":tb")),
         totalHits := opts.points, allowed := true },
       memSetJSON now s (buildKey opts key ++ ":tb")
         (Blob.tb
           { tokens := tbRefilled opts now s (buildKey opts key ++ ":tb") - ((0 : Int) : ℚ),
             lastRefill := now,
             capacity := (tbState opts now s (buildKey opts key ++ ":tb")).capacity,
             refillRate := (tbState opts now s (buildKey opts key ++ ":tb")).refillRate })
         (durMs opts * 2)) := by
    simp only [consumeTokenBucket]
    rw [if_pos hadm]
  rw [hshape] at hok
  injection hok with h1 h2
  rw [← h1, ← h2]
  refine ⟨rfl, ?_⟩
  have hd : alGet (memSetJSON now s (buildKey opts key ++ ":tb")
      (Blob.tb { tokens := tbRefilled opts now s (buildKey opts key ++ ":tb") - ((0 : Int) : ℚ),
                 lastRefill := now,
                 capacity := (tbState opts now s (buildKey opts key ++ ":tb")).capacity,
                 refillRate := (tbState opts now s (buildKey opts key ++ ":tb")).refillRate })
      (durMs opts * 2)).jsonData (buildKey opts key ++ ":tb") =
      some (Blob.tb
        { tokens := tbRefilled opts now s (buildKey opts key ++ ":tb") - ((0 : Int) : ℚ),
          lastRefill := now,
          capacity := (tbState opts now s (buildKey opts key ++ ":tb")).capacity,
          refillRate := (tbState opts now s (buildKey opts key ++ ":tb")).refillRate }) := by
    unfold memSetJSON
    rw [alGet_set_self]
  exact ⟨_, hd, rfl, by push_cast; ring⟩

/-- Witness for the amended C8 at the concrete input of the counterexample. -/
theorem claim_C8_amended_witness :
    (consumeTokenBucket c8opts 2000 c8store "k" 0).1.allowed = true ∧
    ∃ d, alGet (consumeTokenBucket c8opts 2000 c8store "k" 0).2.jsonData
        (buildKey c8opts "k" ++ ":tb") = some (Blob.tb d) ∧
      d.lastRefill = 2000 ∧
      d.tokens = tbRefilled c8opts 2000 c8store (buildKey c8opts "k" ++ ":tb") := by
  have hwf : WFStorage c8opts 2000 c8store := by
    constructor
    · intro p hp
      rw [List.mem_singleton.mp hp]
      show WFBlob c8opts 2000 (.tb c8data)
      unfold WFBlob
      norm_num [c8data]
    · intro p hp
      cases hp
  exact claim_C8_amended c8opts 2000 c8store "k"
    (consumeTokenBucket c8opts 2000 c8store "k" 0).1
    (consumeTokenBucket c8opts 2000 c8store "k" 0).2
    (by decide) (by decide) (by decide) (by decide) hwf (by rfl)


/-! C5: `Get` is read-only and its `null` result characterizes absent state. -/

theorem rlGet_token {opts : Options} {now : Int} {s : MemStorage} {key : String}
    (hstrat : opts.strategy = "token_bucket") :
    rlGet opts now s key = getTokenBucket opts now s (buildKey opts key) := by
  unfold rlGet
  rw [hstrat]
  rfl

theorem rlGet_leaky {opts : Options} {now : Int} {s : MemStorage} {key : String}
    (hstrat : opts.strategy = "leaky_bucket") :
    rlGet opts now s key = getLeakyBucket opts now s (buildKey opts key) := by
  unfold rlGet
  rw [hstrat]
  rfl

theorem rlGet_sliding {opts : Options} {now : Int} {s : MemStorage} {key : String}
    (hstrat : opts.strategy = "sliding_window") :
    rlGet opts now s key = getSlidingWindow opts now s (buildKey opts key) := by
  unfold rlGet
  rw [hstrat]
  rfl

theorem rlGet_fixed {opts : Options} {now : Int} {s : MemStorage} {key : String}
    (hstrat : opts.strategy = "fixed_window") :
    rlGet opts now s key = getFixedWindow opts now s (buildKey opts key) := by
  unfold rlGet
  rw [hstrat]
  rfl

theorem readLB_cases (now : Int) (s : MemStorage) (k : String) :
    readLB now s k = zeroLB ∨
    ∃ p, p ∈ s.jsonData ∧ p.2 = Blob.lb (readLB now s k) := by
  unfold readLB
  cases hm : memGetJSON now s k with
  | none => exact .inl rfl
  | some b =>
    cases b with
    | lb d => exact .inr ⟨(k, .lb d), alGet_mem (memGetJSON_some hm), rfl⟩
    | tb d => exact .inl rfl
    | sw d => exact .inl rfl

/-- C5: for every key and strategy (including the unknown-strategy fallback to
the token bucket reader), `Get` leaves the store untouched, and it returns
`null` exactly when the strategy's persisted state is absent: token bucket —
zero `last_refill`; leaky bucket — empty queue (given that persisted leaky
records always carry a nonempty queue and nonzero `last_drain`, as the engine
guarantees); sliding window — empty stored sequence; fixed window — zero
current-window counter. -/
theorem claim_C5 (opts : Options) (now : Int) (s : MemStorage) (key : String)
    (hreach : LBPersisted s) :
    (rlGet opts now s key).2 = s ∧
    (opts.strategy = "token_bucket" →
      ((rlGet opts now s key).1 = none ↔
        (readTB now s (buildKey opts key ++ ":tb")).lastRefill = 0)) ∧
    (opts.strategy = "leaky_bucket" →
      ((rlGet opts now s key).1 = none ↔
        (readLB now s (buildKey opts key ++ ":lb")).queue = [])) ∧
    (opts.strategy = "sliding_window" →
      ((rlGet opts now s key).1 = none ↔
        (readSW now s (buildKey opts key ++ ":sw")).requests = [])) ∧
    (opts.strategy = "fixed_window" →
      ((rlGet opts now s key).1 = none ↔
        memGet now s (windowKeyOf (buildKey opts key) opts now) = 0)) := by
  refine ⟨rlGet_snd opts now s key, ?_, ?_, ?_, ?_⟩
  · intro hstrat
    rw [rlGet_token hstrat, getTokenBucket_fst]
    by_cases hc : (readTB now s (buildKey opts key ++ ":tb")).lastRefill = 0 <;> simp [hc]
  · intro hstrat
    rw [rlGet_leaky hstrat, getLeakyBucket_fst]
    rcases readLB_cases now s (buildKey opts key ++ ":lb") with hz | ⟨p, hp, hpe⟩
    · rw [hz]
      simp [zeroLB]
    · obtain ⟨hq, hd⟩ := hreach p hp (readLB now s (buildKey opts key ++ ":lb")) hpe
      simp [hd, hq]
  · intro hstrat
    rw [rlGet_sliding hstrat, getSlidingWindow_fst]
    by_cases hc : (readSW now s (buildKey opts key ++ ":sw")).requests.isEmpty = true
    · rw [if_pos hc]
      rw [List.isEmpty_iff] at hc
      simp [hc]
    · rw [if_neg hc]
      rw [List.isEmpty_iff] at hc
      simp [hc]
  · intro hstrat
    rw [rlGet_fixed hstrat, getFixedWindow_fst]
    by_cases hc : memGet now s (windowKeyOf (buildKey opts key) opts now) = 0 <;> simp [hc]

/-- Witness for C5 at a concrete input: leaky bucket with one persisted
one-point request. -/
theorem claim_C5_witness :
    (rlGet c5opts 1000 c5store "k").2 = c5store ∧
    ((rlGet c5opts 1000 c5store "k").1 = none ↔
      (readLB 1000 c5store (buildKey c5opts "k" ++ ":lb")).queue = []) := by
  have hreach : LBPersisted c5store := by
    intro p hp d hd
    rw [List.mem_singleton.mp hp] at hd
    injection hd with h1
    rw [← h1]
    constructor
    · intro hcontra
      cases hcontra
    · intro hcontra
      cases hcontra
  exact ⟨(claim_C5 c5opts 1000 c5store "k" hreach).1,
    (claim_C5 c5opts 1000 c5store "k" hreach).2.2.1 (by decide)⟩


/-! The reachability hypothesis of C5 is maintained by the leaky bucket engine
itself: every record it persists has a nonempty queue and `last_drain = now`. -/

theorem alDel_mem_subset {α : Type} {l : List (String × α)} {k : String} {p : String × α}
    (h : p ∈ alDel l k) : p ∈ l := by
  induction l with
  | nil => cases h
  | cons q t ih =>
    cases q with
    | mk qk qv =>
      simp only [alDel] at h
      by_cases hq : qk = k
      · rw [if_pos hq] at h
        exact List.mem_cons_of_mem _ (ih h)
      · rw [if_neg hq] at h
        rcases List.mem_cons.mp h with h1 | h2
        · exact h1 ▸ List.mem_cons_self _ _
        · exact List.mem_cons_of_mem _ (ih h2)

theorem consumeLeakyBucket_LBPersisted (opts : Options) (now : Int) (s : MemStorage)
    (key : String) (pts : Int) (hnow : now ≠ 0) (hreach : LBPersisted s) :
    LBPersisted (consumeLeakyBucket opts now s key pts).2 := by
  simp only [consumeLeakyBucket]
  by_cases hadm : lbCurrent opts now s (buildKey opts key ++ ":lb") + pts ≤ opts.points
  · rw [if_pos hadm]
    intro p hp d hd
    rcases List.mem_cons.mp hp with h1 | h2
    · rw [h1] at hd
      injection hd with h3
      rw [← h3]
      constructor
      · simp
      · exact hnow
    · exact hreach p (alDel_mem_subset h2) d hd
  · rw [if_neg hadm]
    exact hreach

end Strigo
